import Mathlib

/-!
# Weenix `do_mmap` / `do_munmap` / `tlb_flush_range`

A shallow embedding of `kernel/vm/mmap.c` and `kernel/include/mm/tlb.h`.

* Machine words are natural numbers; every place where the C code can wrap
  (`size_t` addition and subtraction, `uintptr_t` increments) carries an explicit
  `% 2 ^ 64`.
* `int` bit sets (`prot`, `flags`, `f_mode`) are represented by their bit pattern
  as a natural number; only tests of the form `x & MASK` are performed on them.
* Calls to the collaborators (`fget`, `fput`, `vmmap_map`, `vmmap_remove`), the
  single page invalidation `invlpg`, and the store through `ret` are recorded, in
  program order, in an event trace, so that ordering and counting properties can be
  stated about a call.
-/

namespace Weenix

/-- Constants of the kernel headers (`mm/page.h`, `mm/mman.h`, `errno.h`, `fs/file.h`,
`config.h`, `vm/vmmap.h`) used by `mmap.c`.  The headers are not part of the sources
at hand, so their values are parameters of the development. -/
structure Consts where
  PAGE_SHIFT : Nat
  USER_MEM_LOW : Nat
  USER_MEM_HIGH : Nat
  NFILES : Int
  MAP_SHARED : Nat
  MAP_PRIVATE : Nat
  MAP_FIXED : Nat
  MAP_ANON : Nat
  PROT_READ : Nat
  PROT_WRITE : Nat
  FMODE_READ : Nat
  FMODE_WRITE : Nat
  FMODE_APPEND : Nat
  EBADF : Int
  EACCES : Int
  ENODEV : Int
  EINVAL : Int
  VMMAP_DIR_HILO : Int

/-- The values the Weenix headers give to the constants (4 KiB pages, user memory
`[0x400000, 2^47)`, 32 descriptors per process, the usual `mman`/`errno` numbers).
Used for concrete evaluations only. -/
def weenix : Consts where
  PAGE_SHIFT := 12
  USER_MEM_LOW := 0x400000
  USER_MEM_HIGH := 0x800000000000
  NFILES := 32
  MAP_SHARED := 1
  MAP_PRIVATE := 2
  MAP_FIXED := 4
  MAP_ANON := 8
  PROT_READ := 1
  PROT_WRITE := 2
  FMODE_READ := 1
  FMODE_WRITE := 2
  FMODE_APPEND := 4
  EBADF := 9
  EACCES := 13
  ENODEV := 19
  EINVAL := 22
  VMMAP_DIR_HILO := 2

/-- Assumptions on the constants under which the page arithmetic is studied: a page has
between `2` and `2^62` bytes and the user region ends at or below `2^63`. -/
def Consts.Sane (c : Consts) : Prop :=
  1 ≤ c.PAGE_SHIFT ∧ c.PAGE_SHIFT ≤ 62 ∧ c.USER_MEM_HIGH ≤ 2 ^ 63

instance (c : Consts) : Decidable c.Sane := by
  unfold Consts.Sane; infer_instance

/-- Number of values of a 64-bit word (`size_t`, `uintptr_t`). -/
def WORD : Nat := 2 ^ 64

/-- `PAGE_SIZE`, that is `1 << PAGE_SHIFT`. -/
def PAGE_SIZE (c : Consts) : Nat := 2 ^ c.PAGE_SHIFT

/-- Modelled from the spec: the macro `PAGE_OFFSET` of `mm/page.h` (header not among the
sources), the position of a byte address inside its page. -/
def PAGE_OFFSET (c : Consts) (x : Nat) : Nat := x % PAGE_SIZE c

/-- Modelled from the spec: the macro `PAGE_ALIGNED` of `mm/page.h` (header not among
the sources), true when the address lies on a page boundary. -/
abbrev PAGE_ALIGNED (c : Consts) (x : Nat) : Prop := PAGE_OFFSET c x = 0

/-- Modelled from the spec: the macro `ADDR_TO_PN` of `mm/page.h` (header not among the
sources), the page number of a byte address (a right shift by `PAGE_SHIFT`). -/
def ADDR_TO_PN (c : Consts) (x : Nat) : Nat := x / PAGE_SIZE c

/-- Modelled from the spec: the macro `PN_TO_ADDR` of `mm/page.h` (header not among the
sources), the byte address of a page number (a left shift of a 64-bit word). -/
def PN_TO_ADDR (c : Consts) (x : Nat) : Nat := (x * PAGE_SIZE c) % WORD

/-- Modelled from the spec: the macro `PAGE_ALIGN_DOWN` of `mm/page.h` (header not among
the sources), the address rounded down to a page boundary. -/
def PAGE_ALIGN_DOWN (c : Consts) (x : Nat) : Nat := x / PAGE_SIZE c * PAGE_SIZE c

/-- Modelled from the spec: the macro `PAGE_ALIGN_UP` of `mm/page.h` (header not among
the sources), the address rounded up to a page boundary; the addition of
`PAGE_SIZE - 1` is a 64-bit addition. -/
def PAGE_ALIGN_UP (c : Consts) (x : Nat) : Nat :=
  ((x + (PAGE_SIZE c - 1)) % WORD) / PAGE_SIZE c * PAGE_SIZE c

/-- The cast `(uintptr_t)x` of a signed 64-bit value. -/
def toU64 (x : Int) : Nat := (x % (2 ^ 64 : Int)).toNat

/-- The cast `(ssize_t)x` of an unsigned 64-bit value. -/
def toS64 (x : Nat) : Int :=
  if x % WORD < 2 ^ 63 then ((x % WORD : Nat) : Int) else ((x % WORD : Nat) : Int) - 2 ^ 64

/-- The C operator `!` on an integer: `1` for zero and `0` for anything else. -/
def lnot (x : Nat) : Nat := if x = 0 then 1 else 0

/-- The `size_t` subtraction `a - b`. -/
def sub64 (a b : Nat) : Nat := (a + WORD - b % WORD) % WORD

/-- The part of `file_t` read by `do_mmap`: the access mode `f_mode`, the identity of
the vnode `f_vnode`, and whether `f_vnode->vn_ops->mmap` is non-null. -/
structure file_t where
  f_mode : Nat
  f_vnode : Nat
  vn_mmap : Bool
deriving DecidableEq

/-- What a call leaves behind, in program order. -/
inductive Event where
  | fget (fd : Int) (res : Option file_t)
  | fput (f : file_t)
  | vmmap_map (vn : Option Nat) (lopage npages prot flags : Nat) (off dir : Int)
  | vmmap_remove (lopage npages : Nat)
  | tlb_flush (vaddr : Nat)
  | store (ptr val : Nat)
deriving DecidableEq

/-- The collaborators of `mmap.c`, defined elsewhere in the kernel.
* `fget fd` is the open file of descriptor `fd`, if any;
* `vmmap_map vn lopage npages prot flags off dir` gives the status `tmp` and the field
  `new_vma->vma_start` of the area it created;
* `vmmap_remove lopage npages` gives the status. -/
structure Env where
  fget : Int → Option file_t
  vmmap_map : Option Nat → Nat → Nat → Nat → Nat → Int → Int → Int × Nat
  vmmap_remove : Nat → Nat → Int

/-- Result of a call: the returned `long` and the events it produced. -/
structure Outcome where
  ret : Int
  trace : List Event
deriving DecidableEq

/-- The function `tlb_flush` of `mm/tlb.h`: one `invlpg` on `vaddr`. -/
def tlb_flush (vaddr : Nat) : List Event := [Event.tlb_flush vaddr]

/-- The function `tlb_flush_range` of `mm/tlb.h`.  The recursion argument is the number
of iterations still to run, `count - i`; each iteration flushes `vaddr` and then
advances it by `PAGE_SIZE` as a 64-bit word. -/
def tlb_flush_range (c : Consts) (vaddr : Nat) : Nat → List Event
  | 0 => []
  | count + 1 => tlb_flush vaddr ++ tlb_flush_range c ((vaddr + PAGE_SIZE c) % WORD) count

/-- The guarded release `if(file!=NULL){ fput(&file); }`. -/
def fput_if (file : Option file_t) : List Event :=
  match file with
  | some f => [Event.fput f]
  | none => []

/-- Lines 63-92 of `do_mmap`: descriptor resolution and the checks on the backing
object.  The result is either the early return, or the value of `file` (`none` for
`NULL`) together with the events so far. -/
def do_mmap_resolve (c : Consts) (env : Env) (prot flags : Nat) (fd : Int) :
    Except Outcome (Option file_t × List Event) :=
  if fd < 0 ∨ fd ≥ c.NFILES then
    if flags &&& c.MAP_ANON = 0 then
      .error ⟨-c.EBADF, []⟩
    else
      .ok (none, [])
  else
    match env.fget fd with
    | none => .error ⟨-c.EACCES, [Event.fget fd none]⟩
    | some file =>
      if file.vn_mmap = false then
        .error ⟨-c.ENODEV, [Event.fget fd (some file), Event.fput file]⟩
      else if prot &&& c.PROT_WRITE ≠ 0 ∧ file.f_mode &&& c.FMODE_APPEND ≠ 0 then
        .error ⟨-c.EACCES, [Event.fget fd (some file), Event.fput file]⟩
      else if prot &&& c.PROT_WRITE ≠ 0 ∧ flags &&& c.MAP_SHARED ≠ 0 ∧
          ¬ (file.f_mode &&& c.FMODE_READ ≠ 0 ∧ file.f_mode &&& c.FMODE_WRITE ≠ 0) then
        .error ⟨-c.EACCES, [Event.fget fd (some file), Event.fput file]⟩
      else if lnot file.f_mode &&& c.FMODE_READ ≠ 0 then
        .error ⟨-c.EACCES, [Event.fget fd (some file), Event.fput file]⟩
      else
        .ok (some file, [Event.fget fd (some file)])

/-- Lines 93-155 of `do_mmap`: the argument checks, the page range, the call of
`vmmap_map`, the flush and the store through `ret`.  `file` is the handle resolved
before (`none` for `NULL`), `tr` the events so far; `ret` is the pointer argument, with
`0` for `NULL`. -/
def do_mmap_map (c : Consts) (env : Env) (file : Option file_t) (tr : List Event)
    (addr len prot flags : Nat) (off : Int) (ret : Nat) : Outcome :=
  if (¬ PAGE_ALIGNED c addr ∨ addr = 0) ∧ flags &&& c.MAP_FIXED ≠ 0 then
    ⟨-c.EINVAL, tr ++ fput_if file⟩
  else if ¬ PAGE_ALIGNED c (toU64 off) then
    ⟨-c.EINVAL, tr ++ fput_if file⟩
  else if toS64 len ≤ 0 ∨ off < 0 then
    ⟨-c.EINVAL, tr ++ fput_if file⟩
  else if ¬ (flags &&& c.MAP_PRIVATE ≠ 0) ∧ ¬ (flags &&& c.MAP_SHARED ≠ 0) then
    ⟨-c.EINVAL, tr ++ fput_if file⟩
  else if flags &&& c.MAP_FIXED ≠ 0 ∧
      (addr < c.USER_MEM_LOW ∨ addr ≥ c.USER_MEM_HIGH ∨
        (addr + len) % WORD ≥ c.USER_MEM_HIGH ∨ (addr + len) % WORD < c.USER_MEM_LOW ∨
        len ≥ c.USER_MEM_HIGH) then
    ⟨-c.EINVAL, tr ++ fput_if file⟩
  else
    let lopage := ADDR_TO_PN c addr
    let npages := sub64 (ADDR_TO_PN c (PAGE_ALIGN_UP c ((addr + len) % WORD))) lopage
    let vn := file.map (fun f => f.f_vnode)
    let r := env.vmmap_map vn lopage npages prot flags off c.VMMAP_DIR_HILO
    let called := tr ++ [Event.vmmap_map vn lopage npages prot flags off c.VMMAP_DIR_HILO]
    if r.1 < 0 then
      ⟨r.1, called ++ fput_if file⟩
    else
      ⟨0, called ++ tlb_flush_range c (PAGE_ALIGN_DOWN c addr) npages ++
            (if ret ≠ 0 then [Event.store ret (PN_TO_ADDR c r.2)] else []) ++
            fput_if file⟩

/-- The function `do_mmap` of `vm/mmap.c`.  `addr` and `len` are 64-bit words, `prot`
and `flags` the bit patterns of the `int` arguments, `ret` the pointer argument
(`0` for `NULL`). -/
def do_mmap (c : Consts) (env : Env) (addr len prot flags : Nat) (fd : Int) (off : Int)
    (ret : Nat) : Outcome :=
  match do_mmap_resolve c env prot flags fd with
  | .error o => o
  | .ok (file, tr) => do_mmap_map c env file tr addr len prot flags off ret

/-- The function `do_munmap` of `vm/mmap.c`. -/
def do_munmap (c : Consts) (env : Env) (addr len : Nat) : Outcome :=
  if len = 0 then
    ⟨-c.EINVAL, []⟩
  else if ¬ PAGE_ALIGNED c addr then
    ⟨-c.EINVAL, []⟩
  else if addr < c.USER_MEM_LOW ∨ addr ≥ c.USER_MEM_HIGH ∨
      (addr + len) % WORD ≥ c.USER_MEM_HIGH ∨ (addr + len) % WORD < c.USER_MEM_LOW ∨
      len ≥ c.USER_MEM_HIGH then
    ⟨-c.EINVAL, []⟩
  else
    let lopage := ADDR_TO_PN c (PAGE_ALIGN_DOWN c addr)
    let npages := sub64 (ADDR_TO_PN c (PAGE_ALIGN_UP c ((addr + len) % WORD))) lopage
    ⟨env.vmmap_remove lopage npages, [Event.vmmap_remove lopage npages]⟩

/-! ### Observations on event traces -/

/-- A call of `vmmap_map`. -/
def Event.isMap : Event → Bool
  | .vmmap_map _ _ _ _ _ _ _ => true
  | _ => false

/-- A single page invalidation. -/
def Event.isFlush : Event → Bool
  | .tlb_flush _ => true
  | _ => false

/-- A store through the pointer `ret`. -/
def Event.isStore : Event → Bool
  | .store _ _ => true
  | _ => false

/-- A call of `fget` that returned a non-null handle. -/
def Event.isResolution : Event → Bool
  | .fget _ (some _) => true
  | _ => false

/-- A call of `fput`. -/
def Event.isRelease : Event → Bool
  | .fput _ => true
  | _ => false

/-- Number of successful resolutions in a trace. -/
def resolutions (tr : List Event) : Nat := tr.countP Event.isResolution

/-- Number of releases in a trace. -/
def releases (tr : List Event) : Nat := tr.countP Event.isRelease

/-- Modelled from the spec: the effect of the file lookup interface (`fget` and `fput`
of `fs/file.c`, not among the sources) on the reference count of the backing object: a
successful resolution acquires one reference, a release gives one back. -/
def refcount_step (n : Int) : Event → Int
  | .fget _ (some _) => n + 1
  | .fput _ => n - 1
  | _ => n

/-- Reference count of the backing object after the events of a trace, starting from
`n`. -/
def refcount_after (n : Int) (tr : List Event) : Int := tr.foldl refcount_step n

/-! ### Concrete collaborators used in evaluations -/

/-- An environment with a write-only file on descriptor 3 and a read-only file on
descriptor 4, both mappable.  The mapper always succeeds: it keeps a non-zero `lopage`
and otherwise places the area at the top of user memory (the `VMMAP_DIR_HILO`
policy). -/
def env_files : Env where
  fget := fun fd =>
    if fd = 3 then some ⟨weenix.FMODE_WRITE, 7, true⟩
    else if fd = 4 then some ⟨weenix.FMODE_READ, 8, true⟩
    else none
  vmmap_map := fun _ lopage npages _ _ _ _ =>
    (0, if lopage = 0 then ADDR_TO_PN weenix weenix.USER_MEM_HIGH - npages else lopage)
  vmmap_remove := fun _ _ => 0

/-- An environment without open files whose mapper and remover always fail with
`-ENOMEM`. -/
def env_nomem : Env where
  fget := fun _ => none
  vmmap_map := fun _ _ _ _ _ _ _ => (-12, 0)
  vmmap_remove := fun _ _ => -12

/-- An environment with a file on descriptor 5 whose vnode has no `mmap` operation and a
mappable file on descriptor 6 open for reading, writing and appending.  The mapper
succeeds and keeps the requested start page. -/
def env_devices : Env where
  fget := fun fd =>
    if fd = 5 then some ⟨weenix.FMODE_READ ||| weenix.FMODE_WRITE, 9, false⟩
    else if fd = 6 then
      some ⟨weenix.FMODE_READ ||| weenix.FMODE_WRITE ||| weenix.FMODE_APPEND, 10, true⟩
    else none
  vmmap_map := fun _ lopage _ _ _ _ _ => (0, lopage)
  vmmap_remove := fun _ _ => 0

/-! ### The loop of `tlb_flush_range` with its counter -/

/-- The `for` loop of `tlb_flush_range` with its counter `i`, run for at most `fuel`
evaluations of the test `i < count`: `none` when the fuel is used up before the test
fails, otherwise the events of the iterations that ran.  Each iteration flushes
`vaddr`, then increments `i` and advances `vaddr` by `PAGE_SIZE`, both as 64-bit
words. -/
def tlb_flush_range_loop (c : Consts) (count : Nat) : Nat → Nat → Nat → Option (List Event)
  | 0, _, _ => none
  | fuel + 1, i, vaddr =>
    if i < count then
      (tlb_flush_range_loop c count fuel ((i + 1) % WORD) ((vaddr + PAGE_SIZE c) % WORD)).map
        (fun rest => tlb_flush vaddr ++ rest)
    else
      some []

/-! ### Facts about the traces -/

theorem mem_tlb_flush_range (c : Consts) (n : Nat) :
    ∀ (v : Nat) (e : Event), e ∈ tlb_flush_range c v n → ∃ a, e = Event.tlb_flush a := by
  induction n with
  | zero => intro v e h; simp [tlb_flush_range] at h
  | succ k ih =>
    intro v e h
    simp only [tlb_flush_range, tlb_flush, List.singleton_append, List.mem_cons] at h
    rcases h with h | h
    · exact ⟨v, h⟩
    · exact ih _ e h

theorem countP_tlb_flush_range (c : Consts) (p : Event → Bool)
    (hp : ∀ a, p (Event.tlb_flush a) = false) (n v : Nat) :
    (tlb_flush_range c v n).countP p = 0 := by
  rw [List.countP_eq_zero]
  intro e he
  obtain ⟨a, rfl⟩ := mem_tlb_flush_range c n v e he
  simp [hp]

theorem refcount_after_tlb_flush_range (c : Consts) (n : Nat) :
    ∀ (v : Nat) (k : Int), refcount_after k (tlb_flush_range c v n) = k := by
  induction n with
  | zero => intro v k; simp [tlb_flush_range, refcount_after]
  | succ m ih =>
    intro v k
    have h := ih ((v + PAGE_SIZE c) % WORD) k
    simp only [refcount_after] at h
    simp [tlb_flush_range, tlb_flush, refcount_after, refcount_step, h]

theorem refcount_after_append (n : Int) (a b : List Event) :
    refcount_after n (a ++ b) = refcount_after (refcount_after n a) b := by
  simp [refcount_after, List.foldl_append]

/-- What the resolution stage leaves when it lets the call continue: no handle and no
event (anonymous request with an out-of-range descriptor), or the handle that `fget`
gave and that single event. -/
theorem do_mmap_resolve_ok (c : Consts) (env : Env) (prot flags : Nat) (fd : Int)
    (file : Option file_t) (tr : List Event)
    (h : do_mmap_resolve c env prot flags fd = .ok (file, tr)) :
    (file = none ∧ tr = [] ∧ (fd < 0 ∨ fd ≥ c.NFILES)) ∨
    (∃ f, file = some f ∧ tr = [Event.fget fd (some f)] ∧ env.fget fd = some f ∧
      ¬ (fd < 0 ∨ fd ≥ c.NFILES)) := by
  unfold do_mmap_resolve at h
  split at h
  · split at h
    · exact absurd h (by simp)
    · simp only [Except.ok.injEq, Prod.mk.injEq] at h
      exact Or.inl ⟨h.1.symm, h.2.symm, by assumption⟩
  · split at h
    · exact absurd h (by simp)
    · rename_i f hf
      split_ifs at h
      simp only [Except.ok.injEq, Prod.mk.injEq] at h
      exact Or.inr ⟨f, h.1.symm, h.2.symm, hf, by assumption⟩

/-- What the resolution stage leaves when it returns early: one of the three codes
`-EBADF`, `-EACCES`, `-ENODEV`, and either no event, or a failed lookup, or a lookup
followed by the release of the handle it gave. -/
theorem do_mmap_resolve_error (c : Consts) (env : Env) (prot flags : Nat) (fd : Int)
    (o : Outcome) (h : do_mmap_resolve c env prot flags fd = .error o) :
    (o.ret = -c.EBADF ∨ o.ret = -c.EACCES ∨ o.ret = -c.ENODEV) ∧
    ((o.trace = [] ∧ (fd < 0 ∨ fd ≥ c.NFILES)) ∨
     (o.trace = [Event.fget fd none] ∧ env.fget fd = none ∧ ¬ (fd < 0 ∨ fd ≥ c.NFILES)) ∨
     (∃ f, o.trace = [Event.fget fd (some f), Event.fput f] ∧ env.fget fd = some f ∧
        ¬ (fd < 0 ∨ fd ≥ c.NFILES))) := by
  unfold do_mmap_resolve at h
  split at h
  · split at h
    · simp only [Except.error.injEq] at h
      subst h
      exact ⟨Or.inl rfl, Or.inl ⟨rfl, by assumption⟩⟩
    · exact absurd h (by simp)
  · split at h
    · rename_i hf
      simp only [Except.error.injEq] at h
      subst h
      exact ⟨Or.inr (Or.inl rfl), Or.inr (Or.inl ⟨rfl, hf, by assumption⟩)⟩
    · rename_i f hf
      split_ifs at h <;> simp only [Except.error.injEq] at h <;> subst h
      · exact ⟨Or.inr (Or.inr rfl), Or.inr (Or.inr ⟨f, rfl, hf, by assumption⟩)⟩
      · exact ⟨Or.inr (Or.inl rfl), Or.inr (Or.inr ⟨f, rfl, hf, by assumption⟩)⟩
      · exact ⟨Or.inr (Or.inl rfl), Or.inr (Or.inr ⟨f, rfl, hf, by assumption⟩)⟩
      · exact ⟨Or.inr (Or.inl rfl), Or.inr (Or.inr ⟨f, rfl, hf, by assumption⟩)⟩

/-- The two ways the second stage of `do_mmap` can end: an `-EINVAL` return that only
releases the handle, or, all argument checks having passed, one call of `vmmap_map` on
the computed page range followed by either the propagation of its negative status or
the flush, the optional store and the return of `0`. -/
theorem do_mmap_map_shape (c : Consts) (env : Env) (file : Option file_t)
    (tr : List Event) (addr len prot flags : Nat) (off : Int) (ret : Nat) :
    do_mmap_map c env file tr addr len prot flags off ret = ⟨-c.EINVAL, tr ++ fput_if file⟩ ∨
    ((flags &&& c.MAP_FIXED ≠ 0 →
        PAGE_ALIGNED c addr ∧ addr ≠ 0 ∧ c.USER_MEM_LOW ≤ addr ∧ addr < c.USER_MEM_HIGH ∧
        (addr + len) % WORD < c.USER_MEM_HIGH ∧ c.USER_MEM_LOW ≤ (addr + len) % WORD ∧
        len < c.USER_MEM_HIGH) ∧
      PAGE_ALIGNED c (toU64 off) ∧ 0 < toS64 len ∧ 0 ≤ off ∧
      (flags &&& c.MAP_PRIVATE ≠ 0 ∨ flags &&& c.MAP_SHARED ≠ 0) ∧
      ∃ lo np, lo = ADDR_TO_PN c addr ∧
        np = sub64 (ADDR_TO_PN c (PAGE_ALIGN_UP c ((addr + len) % WORD))) lo ∧
        (((env.vmmap_map (file.map (fun f => f.f_vnode)) lo np prot flags off
              c.VMMAP_DIR_HILO).1 < 0 ∧
            do_mmap_map c env file tr addr len prot flags off ret =
              ⟨(env.vmmap_map (file.map (fun f => f.f_vnode)) lo np prot flags off
                  c.VMMAP_DIR_HILO).1,
                tr ++ [Event.vmmap_map (file.map (fun f => f.f_vnode)) lo np prot flags off
                  c.VMMAP_DIR_HILO] ++ fput_if file⟩) ∨
         (¬ (env.vmmap_map (file.map (fun f => f.f_vnode)) lo np prot flags off
              c.VMMAP_DIR_HILO).1 < 0 ∧
            do_mmap_map c env file tr addr len prot flags off ret =
              ⟨0, tr ++ [Event.vmmap_map (file.map (fun f => f.f_vnode)) lo np prot flags off
                  c.VMMAP_DIR_HILO] ++ tlb_flush_range c (PAGE_ALIGN_DOWN c addr) np ++
                (if ret ≠ 0 then
                  [Event.store ret (PN_TO_ADDR c (env.vmmap_map (file.map (fun f => f.f_vnode))
                    lo np prot flags off c.VMMAP_DIR_HILO).2)]
                 else []) ++ fput_if file⟩))) := by
  unfold do_mmap_map
  by_cases h1 : (¬ PAGE_ALIGNED c addr ∨ addr = 0) ∧ flags &&& c.MAP_FIXED ≠ 0
  · left; rw [if_pos h1]
  by_cases h2 : ¬ PAGE_ALIGNED c (toU64 off)
  · left; rw [if_neg h1, if_pos h2]
  by_cases h3 : toS64 len ≤ 0 ∨ off < 0
  · left; rw [if_neg h1, if_neg h2, if_pos h3]
  by_cases h4 : ¬ (flags &&& c.MAP_PRIVATE ≠ 0) ∧ ¬ (flags &&& c.MAP_SHARED ≠ 0)
  · left; rw [if_neg h1, if_neg h2, if_neg h3, if_pos h4]
  by_cases h5 : flags &&& c.MAP_FIXED ≠ 0 ∧
      (addr < c.USER_MEM_LOW ∨ addr ≥ c.USER_MEM_HIGH ∨
        (addr + len) % WORD ≥ c.USER_MEM_HIGH ∨ (addr + len) % WORD < c.USER_MEM_LOW ∨
        len ≥ c.USER_MEM_HIGH)
  · left; rw [if_neg h1, if_neg h2, if_neg h3, if_neg h4, if_pos h5]
  right
  rw [if_neg h1, if_neg h2, if_neg h3, if_neg h4, if_neg h5]
  refine ⟨?_, ?_, ?_, ?_, ?_, _, _, rfl, rfl, ?_⟩
  · intro hf
    have h1a : ¬ (¬ PAGE_ALIGNED c addr ∨ addr = 0) := fun h => h1 ⟨h, hf⟩
    have h5a : ¬ (addr < c.USER_MEM_LOW ∨ addr ≥ c.USER_MEM_HIGH ∨
        (addr + len) % WORD ≥ c.USER_MEM_HIGH ∨ (addr + len) % WORD < c.USER_MEM_LOW ∨
        len ≥ c.USER_MEM_HIGH) := fun h => h5 ⟨hf, h⟩
    simp only [not_or, not_not, not_lt, ge_iff_le, not_le] at h1a h5a
    exact ⟨h1a.1, h1a.2, h5a.1, h5a.2.1, h5a.2.2.1, h5a.2.2.2.1, h5a.2.2.2.2⟩
  · exact not_not.mp h2
  · simp only [not_or, not_le, not_lt] at h3; exact h3.1
  · simp only [not_or, not_le, not_lt] at h3; exact h3.2
  · by_contra hn
    simp only [not_or] at hn
    exact h4 hn
  · by_cases hr : (env.vmmap_map (file.map (fun f => f.f_vnode)) (ADDR_TO_PN c addr)
        (sub64 (ADDR_TO_PN c (PAGE_ALIGN_UP c ((addr + len) % WORD))) (ADDR_TO_PN c addr))
        prot flags off c.VMMAP_DIR_HILO).1 < 0
    · left; exact ⟨hr, by simp only [if_pos hr]⟩
    · right; exact ⟨hr, by simp only [if_neg hr]⟩

/-- A call of `vmmap_map` recorded by `do_mmap` carries the page range computed from
`addr` and `len`, and is made only after the argument checks have passed. -/
theorem do_mmap_reach (c : Consts) (env : Env) (addr len prot flags : Nat) (fd : Int)
    (off : Int) (ret : Nat) (vn : Option Nat) (lo np pr fl : Nat) (o d : Int)
    (h : Event.vmmap_map vn lo np pr fl o d ∈
      (do_mmap c env addr len prot flags fd off ret).trace) :
    lo = ADDR_TO_PN c addr ∧
    np = sub64 (ADDR_TO_PN c (PAGE_ALIGN_UP c ((addr + len) % WORD))) (ADDR_TO_PN c addr) ∧
    0 < toS64 len ∧
    (flags &&& c.MAP_FIXED ≠ 0 →
        PAGE_ALIGNED c addr ∧ addr ≠ 0 ∧ c.USER_MEM_LOW ≤ addr ∧ addr < c.USER_MEM_HIGH ∧
        (addr + len) % WORD < c.USER_MEM_HIGH ∧ c.USER_MEM_LOW ≤ (addr + len) % WORD ∧
        len < c.USER_MEM_HIGH) := by
  unfold do_mmap at h
  split at h
  · rename_i o1 ho
    obtain ⟨-, ht⟩ := do_mmap_resolve_error c env prot flags fd o1 ho
    rcases ht with ⟨ht, -⟩ | ⟨ht, -⟩ | ⟨f, ht, -⟩ <;> rw [ht] at h <;> simp at h
  · rename_i file tr hr
    have htr : Event.vmmap_map vn lo np pr fl o d ∉ tr := by
      rcases do_mmap_resolve_ok c env prot flags fd file tr hr with ⟨-, ht, -⟩ | ⟨f, -, ht, -⟩ <;>
        rw [ht] <;> simp
    have hfp : Event.vmmap_map vn lo np pr fl o d ∉ fput_if file := by
      unfold fput_if; cases file <;> simp
    rcases do_mmap_map_shape c env file tr addr len prot flags off ret with
      he | ⟨hfix, -, hlen, -, -, lo1, np1, hlo, hnp, hcase⟩
    · rw [he] at h
      simp only [List.mem_append] at h
      rcases h with h | h
      · exact absurd h htr
      · exact absurd h hfp
    · have hfl : ∀ n v, Event.vmmap_map vn lo np pr fl o d ∉ tlb_flush_range c v n := by
        intro n v hm
        obtain ⟨a, ha⟩ := mem_tlb_flush_range c n v _ hm
        exact absurd ha (by simp)
      have key : Event.vmmap_map vn lo np pr fl o d =
          Event.vmmap_map (file.map (fun f => f.f_vnode)) lo1 np1 prot flags off
            c.VMMAP_DIR_HILO := by
        rcases hcase with ⟨-, he⟩ | ⟨-, he⟩
        · rw [he] at h
          simp only [List.mem_append, List.mem_singleton] at h
          rcases h with (h | h) | h
          · exact absurd h htr
          · exact h
          · exact absurd h hfp
        · rw [he] at h
          simp only [List.mem_append, List.mem_singleton] at h
          rcases h with (((h | h) | h) | h) | h
          · exact absurd h htr
          · exact h
          · exact absurd h (hfl _ _)
          · split_ifs at h <;> simp at h
          · exact absurd h hfp
      simp only [Event.vmmap_map.injEq] at key
      obtain ⟨-, k1, k2, -⟩ := key
      subst hlo hnp
      exact ⟨k1, k2, hlen, hfix⟩

/-- Every call of `do_mmap` has one of three forms.  The events on the handle are a
prefix `pre` and a suffix `post`: both empty (descriptor out of range), a failed lookup
and nothing after it, or a successful lookup and the release of the handle it gave.
Between them there is either nothing, and the result is one of the four local error
codes; or one call of `vmmap_map` whose negative status is returned; or that call, the
flush, the optional store, and the result `0`. -/
theorem do_mmap_form (c : Consts) (env : Env) (addr len prot flags : Nat) (fd : Int)
    (off : Int) (ret : Nat) :
    ∃ pre post : List Event,
      ((pre = [] ∧ post = [] ∧ (fd < 0 ∨ fd ≥ c.NFILES)) ∨
       (pre = [Event.fget fd none] ∧ post = [] ∧ env.fget fd = none ∧
          ¬ (fd < 0 ∨ fd ≥ c.NFILES)) ∨
       (∃ f, pre = [Event.fget fd (some f)] ∧ post = [Event.fput f] ∧
          env.fget fd = some f ∧ ¬ (fd < 0 ∨ fd ≥ c.NFILES))) ∧
      ((∃ e, (e = -c.EBADF ∨ e = -c.EACCES ∨ e = -c.ENODEV ∨ e = -c.EINVAL) ∧
          do_mmap c env addr len prot flags fd off ret = ⟨e, pre ++ post⟩) ∨
       (∃ vn lo np,
          ((env.vmmap_map vn lo np prot flags off c.VMMAP_DIR_HILO).1 < 0 ∧
            do_mmap c env addr len prot flags fd off ret =
              ⟨(env.vmmap_map vn lo np prot flags off c.VMMAP_DIR_HILO).1,
                pre ++ [Event.vmmap_map vn lo np prot flags off c.VMMAP_DIR_HILO] ++ post⟩) ∨
          (¬ (env.vmmap_map vn lo np prot flags off c.VMMAP_DIR_HILO).1 < 0 ∧
            do_mmap c env addr len prot flags fd off ret =
              ⟨0, pre ++ [Event.vmmap_map vn lo np prot flags off c.VMMAP_DIR_HILO] ++
                tlb_flush_range c (PAGE_ALIGN_DOWN c addr) np ++
                (if ret ≠ 0 then
                  [Event.store ret (PN_TO_ADDR c
                    (env.vmmap_map vn lo np prot flags off c.VMMAP_DIR_HILO).2)]
                 else []) ++ post⟩))) := by
  unfold do_mmap
  split
  · rename_i o1 ho
    obtain ⟨hret, hshape⟩ := do_mmap_resolve_error c env prot flags fd o1 ho
    have hcode : o1.ret = -c.EBADF ∨ o1.ret = -c.EACCES ∨ o1.ret = -c.ENODEV ∨
        o1.ret = -c.EINVAL := by
      rcases hret with h | h | h
      · exact Or.inl h
      · exact Or.inr (Or.inl h)
      · exact Or.inr (Or.inr (Or.inl h))
    obtain ⟨r1, t1⟩ := o1
    simp only at hshape hcode
    rcases hshape with ⟨ht, hfd⟩ | ⟨ht, hg, hfd⟩ | ⟨f, ht, hg, hfd⟩
    · exact ⟨[], [], Or.inl ⟨rfl, rfl, hfd⟩, Or.inl ⟨r1, hcode, by rw [ht]; rfl⟩⟩
    · exact ⟨[Event.fget fd none], [], Or.inr (Or.inl ⟨rfl, rfl, hg, hfd⟩),
        Or.inl ⟨r1, hcode, by rw [ht]; rfl⟩⟩
    · exact ⟨[Event.fget fd (some f)], [Event.fput f],
        Or.inr (Or.inr ⟨f, rfl, rfl, hg, hfd⟩), Or.inl ⟨r1, hcode, by rw [ht]; rfl⟩⟩
  · rename_i file tr hr
    have hpp : (tr = [] ∧ fput_if file = [] ∧ (fd < 0 ∨ fd ≥ c.NFILES)) ∨
        (tr = [Event.fget fd none] ∧ fput_if file = [] ∧ env.fget fd = none ∧
          ¬ (fd < 0 ∨ fd ≥ c.NFILES)) ∨
        (∃ f, tr = [Event.fget fd (some f)] ∧ fput_if file = [Event.fput f] ∧
          env.fget fd = some f ∧ ¬ (fd < 0 ∨ fd ≥ c.NFILES)) := by
      rcases do_mmap_resolve_ok c env prot flags fd file tr hr with
        ⟨hf, ht, hfd⟩ | ⟨f, hf, ht, hg, hfd⟩
      · exact Or.inl ⟨ht, by rw [hf]; rfl, hfd⟩
      · exact Or.inr (Or.inr ⟨f, ht, by rw [hf]; rfl, hg, hfd⟩)
    refine ⟨tr, fput_if file, hpp, ?_⟩
    rcases do_mmap_map_shape c env file tr addr len prot flags off ret with
      he | ⟨-, -, -, -, -, lo, np, -, -, hcase⟩
    · exact Or.inl ⟨-c.EINVAL, Or.inr (Or.inr (Or.inr rfl)), he⟩
    · exact Or.inr ⟨_, lo, np, hcase⟩

/-- Events that are neither a lookup nor a release leave the counts of resolutions
and releases and the reference count as they are. -/
theorem middle_neutral (mid : List Event)
    (h : ∀ e ∈ mid, e.isMap = true ∨ e.isFlush = true ∨ e.isStore = true) :
    releases mid = 0 ∧ resolutions mid = 0 ∧ (∀ k, refcount_after k mid = k) ∧
      ∀ f, Event.fput f ∉ mid := by
  induction mid with
  | nil => simp [releases, resolutions, refcount_after]
  | cons e rest ih =>
    obtain ⟨i1, i2, i3, i4⟩ := ih (fun x hx => h x (List.mem_cons_of_mem _ hx))
    have he := h e (List.mem_cons_self _ _)
    unfold releases resolutions at *
    unfold refcount_after at i3 ⊢
    cases e <;>
      simp [Event.isMap, Event.isFlush, Event.isStore] at he <;>
      simp [List.countP_cons, Event.isRelease, Event.isResolution, refcount_step, i1, i2, i3, i4]

/-- The trace of a call of `do_mmap` is the lookup events `pre`, then events `mid` of
the mapper, the flush and the store, then the release events `post`. -/
theorem do_mmap_trace_split (c : Consts) (env : Env) (addr len prot flags : Nat)
    (fd : Int) (off : Int) (ret : Nat) :
    ∃ pre mid post : List Event,
      ((pre = [] ∧ post = [] ∧ (fd < 0 ∨ fd ≥ c.NFILES)) ∨
       (pre = [Event.fget fd none] ∧ post = [] ∧ env.fget fd = none ∧
          ¬ (fd < 0 ∨ fd ≥ c.NFILES)) ∨
       (∃ f, pre = [Event.fget fd (some f)] ∧ post = [Event.fput f] ∧
          env.fget fd = some f ∧ ¬ (fd < 0 ∨ fd ≥ c.NFILES))) ∧
      (∀ e ∈ mid, e.isMap = true ∨ e.isFlush = true ∨ e.isStore = true) ∧
      (do_mmap c env addr len prot flags fd off ret).trace = pre ++ (mid ++ post) := by
  obtain ⟨pre, post, hpp, hmid⟩ := do_mmap_form c env addr len prot flags fd off ret
  rcases hmid with ⟨e, -, he⟩ | ⟨vn, lo, np, ⟨-, he⟩ | ⟨-, he⟩⟩
  · exact ⟨pre, [], post, hpp, by simp, by rw [he]; simp⟩
  · refine ⟨pre, [Event.vmmap_map vn lo np prot flags off c.VMMAP_DIR_HILO], post, hpp,
      ?_, by rw [he]; simp⟩
    intro e he
    simp only [List.mem_singleton] at he
    subst he
    exact Or.inl rfl
  · refine ⟨pre, [Event.vmmap_map vn lo np prot flags off c.VMMAP_DIR_HILO] ++
        tlb_flush_range c (PAGE_ALIGN_DOWN c addr) np ++
        (if ret ≠ 0 then
          [Event.store ret (PN_TO_ADDR c
            (env.vmmap_map vn lo np prot flags off c.VMMAP_DIR_HILO).2)]
         else []), post, hpp, ?_, by rw [he]; simp⟩
    intro e he
    simp only [List.mem_append, List.mem_singleton] at he
    rcases he with (he | he) | he
    · subst he; exact Or.inl rfl
    · obtain ⟨a, rfl⟩ := mem_tlb_flush_range c _ _ e he
      exact Or.inr (Or.inl rfl)
    · split_ifs at he
      · simp only [List.mem_singleton] at he
        subst he; exact Or.inr (Or.inr rfl)
      · simp at he

/-- A trace made of a part without invalidation followed by a part without mapper call
has no mapper call after an invalidation. -/
theorem pairwise_flush_map (A B : List Event) (hA : ∀ e ∈ A, e.isFlush = false)
    (hB : ∀ e ∈ B, e.isMap = false) :
    (A ++ B).Pairwise (fun e1 e2 => e1.isFlush = true → e2.isMap = false) := by
  rw [List.pairwise_append]
  refine ⟨?_, ?_, ?_⟩
  · apply List.pairwise_of_forall_mem_list
    intro a ha b _ hf
    rw [hA a ha] at hf
    exact absurd hf (by simp)
  · apply List.pairwise_of_forall_mem_list
    intro a _ b hb _
    exact hB b hb
  · intro a ha b _ hf
    rw [hA a ha] at hf
    exact absurd hf (by simp)

/-! ### Page arithmetic -/

theorem page_size_bounds (c : Consts) (hc : c.Sane) :
    2 ≤ PAGE_SIZE c ∧ PAGE_SIZE c ≤ 2 ^ 62 := by
  obtain ⟨h1, h2, -⟩ := hc
  unfold PAGE_SIZE
  constructor
  · calc 2 = 2 ^ 1 := by norm_num
      _ ≤ 2 ^ c.PAGE_SHIFT := Nat.pow_le_pow_right (by norm_num) h1
  · exact Nat.pow_le_pow_right (by norm_num) h2

/-- The page number of a rounded-up address, as a plain quotient. -/
theorem addr_to_pn_align_up (c : Consts) (hP : 0 < PAGE_SIZE c) (x : Nat) :
    ADDR_TO_PN c (PAGE_ALIGN_UP c x) = ((x + (PAGE_SIZE c - 1)) % WORD) / PAGE_SIZE c := by
  unfold ADDR_TO_PN PAGE_ALIGN_UP
  exact Nat.mul_div_cancel _ hP

/-- The signed reading of a word is positive exactly for the words `1 .. 2^63 - 1`. -/
theorem toS64_pos (len : Nat) (hl : len < WORD) (h : 0 < toS64 len) :
    0 < len ∧ len < 2 ^ 63 := by
  unfold toS64 at h
  unfold WORD at h hl
  rw [Nat.mod_eq_of_lt hl] at h
  split_ifs at h with h1
  · omega
  · omega

/-- Without wrap-around the computed page count added to the start page is the
rounded-up quotient of the end address. -/
theorem npages_no_wrap (P addr len : Nat)
    (hnw : addr + len + (P - 1) < WORD) :
    addr / P + sub64 ((((addr + len) % WORD + (P - 1)) % WORD) / P) (addr / P) =
      (addr + len + (P - 1)) / P := by
  have h1 : (addr + len) % WORD = addr + len := Nat.mod_eq_of_lt (by omega)
  rw [h1, Nat.mod_eq_of_lt hnw]
  have hle : addr / P ≤ (addr + len + (P - 1)) / P := Nat.div_le_div_right (by omega)
  have hb : (addr + len + (P - 1)) / P < WORD :=
    lt_of_le_of_lt (Nat.div_le_self _ _) hnw
  unfold sub64
  have h2 : addr / P % WORD = addr / P := Nat.mod_eq_of_lt (by omega)
  rw [h2]
  unfold WORD at *
  omega

/-- The computed page count is never zero when the length is a positive signed value. -/
theorem npages_pos (P addr len : Nat) (hP : 0 < P) (hP2 : P ≤ 2 ^ 62)
    (ha : addr < WORD) (hl0 : 0 < len) (hl : len < 2 ^ 63) :
    1 ≤ sub64 ((((addr + len) % WORD + (P - 1)) % WORD) / P) (addr / P) := by
  unfold sub64 WORD
  unfold WORD at ha
  have e1 := Nat.div_add_mod addr P
  have e2 := Nat.div_add_mod (((addr + len) % 2 ^ 64 + (P - 1)) % 2 ^ 64) P
  have r1 := Nat.mod_lt addr hP
  have r2 := Nat.mod_lt (((addr + len) % 2 ^ 64 + (P - 1)) % 2 ^ 64) hP
  have b1 : addr / P ≤ addr := Nat.div_le_self _ _
  have b2 : (((addr + len) % 2 ^ 64 + (P - 1)) % 2 ^ 64) / P ≤
      ((addr + len) % 2 ^ 64 + (P - 1)) % 2 ^ 64 := Nat.div_le_self _ _
  generalize ht : ((addr + len) % 2 ^ 64 + (P - 1)) % 2 ^ 64 = t at e2 r2 b2 ⊢
  generalize addr % P = ra at e1 r1
  generalize t % P = rt at e2 r2
  generalize addr / P = qa at e1 b1 ⊢
  generalize t / P = qt at e2 b2 ⊢
  by_contra hz
  have hq : qt = qa := by omega
  subst hq
  omega

/-- For a length of at most one page the computed page count is one exactly when the
byte range stays inside one page and the rounding does not wrap. -/
theorem npages_one (P addr len : Nat) (hP : 2 ≤ P) (hP2 : P ≤ 2 ^ 62)
    (ha : addr < WORD) (hl0 : 0 < len) (hl : len ≤ P) :
    sub64 ((((addr + len) % WORD + (P - 1)) % WORD) / P) (addr / P) = 1 ↔
      (addr % P + len ≤ P ∧ addr + len + (P - 1) < WORD) := by
  unfold sub64 WORD
  unfold WORD at ha
  have hP0 : 0 < P := by omega
  have e1 := Nat.div_add_mod addr P
  have r1 := Nat.mod_lt addr hP0
  have b1 : 2 * (addr / P) ≤ P * (addr / P) := Nat.mul_le_mul_right _ hP
  constructor
  · intro h
    have e2 := Nat.div_add_mod (((addr + len) % 2 ^ 64 + (P - 1)) % 2 ^ 64) P
    have r2 := Nat.mod_lt (((addr + len) % 2 ^ 64 + (P - 1)) % 2 ^ 64) hP0
    have b2 : (((addr + len) % 2 ^ 64 + (P - 1)) % 2 ^ 64) / P ≤
        ((addr + len) % 2 ^ 64 + (P - 1)) % 2 ^ 64 := Nat.div_le_self _ _
    generalize ht : ((addr + len) % 2 ^ 64 + (P - 1)) % 2 ^ 64 = t at e2 r2 b2 h
    generalize addr % P = ra at e1 r1 ⊢
    generalize t % P = rt at e2 r2
    generalize addr / P = qa at e1 b1 h
    generalize t / P = qt at e2 b2 h
    have hq : qt = qa + 1 := by omega
    subst hq
    have e3 : P * (qa + 1) = P * qa + P := by ring
    rw [e3] at e2
    omega
  · rintro ⟨hin, hnw⟩
    have h1 : (addr + len) % 2 ^ 64 = addr + len := Nat.mod_eq_of_lt (by omega)
    rw [h1, Nat.mod_eq_of_lt hnw]
    have e3 : (addr / P + 1) * P = P * (addr / P) + P := by ring
    have e4 : (addr / P + 1 + 1) * P = P * (addr / P) + 2 * P := by ring
    have hq : (addr + len + (P - 1)) / P = addr / P + 1 :=
      Nat.div_eq_of_lt_le (by omega) (by omega)
    rw [hq]
    generalize addr / P = qa at e1 b1 ⊢
    omega

/-- An accepted fixed request does not wrap: the checks bound the address and the end
of the range by `USER_MEM_HIGH`. -/
theorem fixed_no_wrap (c : Consts) (hc : c.Sane) (addr len : Nat) (hl : len < 2 ^ 63)
    (ha : addr < c.USER_MEM_HIGH) (he : (addr + len) % WORD < c.USER_MEM_HIGH) :
    addr + len + (PAGE_SIZE c - 1) < WORD := by
  have hp := (page_size_bounds c hc).2
  obtain ⟨-, -, hu⟩ := hc
  unfold WORD at *
  omega

/-! ### The claims -/

/-- C1, evaluated where the code departs from it: for
`mmap(NULL, 4096, PROT_READ, MAP_PRIVATE|MAP_ANON, -1, 0)` and a mapper that places the
new area at page `0x7ffffffff`, `do_mmap` returns `0`, stores the byte address
`0x7ffffffff000` of the reserved page through `ret`, and invalidates the single page at
address `0` (the rounded-down hint); the reserved page itself is not invalidated. -/
theorem c1_flush_at_hint_not_at_reservation :
    do_mmap weenix env_files 0 4096 weenix.PROT_READ
        (weenix.MAP_PRIVATE ||| weenix.MAP_ANON) (-1) 0 0x1000 =
      ⟨0, [Event.vmmap_map none 0 1 1 10 0 2, Event.tlb_flush 0,
            Event.store 0x1000 0x7ffffffff000]⟩ ∧
    (env_files.vmmap_map none 0 1 1 10 0 2).2 = 0x7ffffffff ∧
    Event.tlb_flush (PN_TO_ADDR weenix 0x7ffffffff) ∉
      (do_mmap weenix env_files 0 4096 weenix.PROT_READ
        (weenix.MAP_PRIVATE ||| weenix.MAP_ANON) (-1) 0 0x1000).trace := by
  decide

/-- C2, evaluated where the code departs from it: descriptor 3 is a mappable file open
write-only (`f_mode = FMODE_WRITE`); the request `PROT_READ`, `MAP_PRIVATE` on it is
not refused: the test `!file->f_mode & FMODE_READ` is `0`, `vmmap_map` is called with
the file's vnode and `do_mmap` returns `0`. -/
theorem c2_write_only_file_is_mapped :
    env_files.fget 3 = some ⟨weenix.FMODE_WRITE, 7, true⟩ ∧
    weenix.FMODE_WRITE &&& weenix.FMODE_READ = 0 ∧
    do_mmap weenix env_files 0 4096 weenix.PROT_READ weenix.MAP_PRIVATE 3 0 0 =
      ⟨0, [Event.fget 3 (some ⟨weenix.FMODE_WRITE, 7, true⟩),
            Event.vmmap_map (some 7) 0 1 1 2 0 2, Event.tlb_flush 0,
            Event.fput ⟨weenix.FMODE_WRITE, 7, true⟩]⟩ := by
  decide

/-- C3 as stated fails: an anonymous request with both `MAP_PRIVATE` and `MAP_SHARED`
set passes the resolution stage and is accepted; `do_mmap` calls the mapper and returns
`0`, not `-EINVAL`. -/
theorem c3_both_sharing_modes_accepted :
    do_mmap_resolve weenix env_files weenix.PROT_READ
        (weenix.MAP_PRIVATE ||| weenix.MAP_SHARED ||| weenix.MAP_ANON) (-1) = .ok (none, []) ∧
    do_mmap weenix env_files 0 4096 weenix.PROT_READ
        (weenix.MAP_PRIVATE ||| weenix.MAP_SHARED ||| weenix.MAP_ANON) (-1) 0 0 =
      ⟨0, [Event.vmmap_map none 0 1 1 11 0 2, Event.tlb_flush 0]⟩ ∧
    (do_mmap weenix env_files 0 4096 weenix.PROT_READ
        (weenix.MAP_PRIVATE ||| weenix.MAP_SHARED ||| weenix.MAP_ANON) (-1) 0 0).ret ≠
      -weenix.EINVAL :=
  ⟨rfl, by decide, by decide⟩

/-- C3 amended: a request that passes the resolution stage (descriptor and
backing-object checks) and has neither `MAP_PRIVATE` nor `MAP_SHARED` set is refused
with `-EINVAL`; the mapper is not called, the only event after resolution is the
release of the handle, if any. -/
theorem c3_no_sharing_mode_is_einval (c : Consts) (env : Env) (addr len prot flags : Nat)
    (fd : Int) (off : Int) (ret : Nat) (file : Option file_t) (tr : List Event)
    (hres : do_mmap_resolve c env prot flags fd = .ok (file, tr))
    (hp : flags &&& c.MAP_PRIVATE = 0) (hs : flags &&& c.MAP_SHARED = 0) :
    do_mmap c env addr len prot flags fd off ret = ⟨-c.EINVAL, tr ++ fput_if file⟩ := by
  unfold do_mmap
  rw [hres]
  rcases do_mmap_map_shape c env file tr addr len prot flags off ret with
    he | ⟨-, -, -, -, hsh, -⟩
  · exact he
  · rcases hsh with h | h
    · exact absurd hp h
    · exact absurd hs h

/-- The amended C3 at an anonymous request whose flags are `MAP_ANON` alone. -/
theorem c3_no_sharing_mode_is_einval_witness :
    do_mmap weenix env_files 0 4096 weenix.PROT_READ weenix.MAP_ANON (-1) 0 0 =
      ⟨-weenix.EINVAL, [] ++ fput_if none⟩ :=
  c3_no_sharing_mode_is_einval weenix env_files 0 4096 weenix.PROT_READ weenix.MAP_ANON
    (-1) 0 0 none [] rfl (by decide) (by decide)

/-- C9 as stated fails: with `MAP_FIXED` set and the unaligned address `1`, an
out-of-range descriptor without `MAP_ANON` makes `do_mmap` return `-EBADF`, not
`-EINVAL`: the descriptor is examined before the address. -/
theorem c9_descriptor_checked_before_alignment :
    (weenix.MAP_FIXED ||| weenix.MAP_PRIVATE) &&& weenix.MAP_FIXED ≠ 0 ∧
    ¬ PAGE_ALIGNED weenix 1 ∧
    do_mmap weenix env_files 1 4096 weenix.PROT_READ
        (weenix.MAP_FIXED ||| weenix.MAP_PRIVATE) (-1) 0 0 = ⟨-weenix.EBADF, []⟩ ∧
    (do_mmap weenix env_files 1 4096 weenix.PROT_READ
        (weenix.MAP_FIXED ||| weenix.MAP_PRIVATE) (-1) 0 0).ret ≠ -weenix.EINVAL := by
  decide

/-- C9 amended: a request with `MAP_FIXED` set and an address that is not page-aligned,
once it has passed the resolution stage (descriptor and backing-object checks), is
refused with `-EINVAL` whatever `prot`, the other flags, `len` and `off` are; the
mapper is not called. -/
theorem c9_fixed_unaligned_is_einval (c : Consts) (env : Env)
    (addr len prot flags : Nat) (fd : Int) (off : Int) (ret : Nat)
    (file : Option file_t) (tr : List Event)
    (hres : do_mmap_resolve c env prot flags fd = .ok (file, tr))
    (hfix : flags &&& c.MAP_FIXED ≠ 0) (hna : ¬ PAGE_ALIGNED c addr) :
    do_mmap c env addr len prot flags fd off ret = ⟨-c.EINVAL, tr ++ fput_if file⟩ := by
  unfold do_mmap
  rw [hres]
  rcases do_mmap_map_shape c env file tr addr len prot flags off ret with
    he | ⟨hf, -⟩
  · exact he
  · exact absurd (hf hfix).1 hna

/-- The amended C9 at the anonymous fixed request with address `1`. -/
theorem c9_fixed_unaligned_is_einval_witness :
    do_mmap weenix env_files 1 4096 weenix.PROT_READ
        (weenix.MAP_FIXED ||| weenix.MAP_PRIVATE ||| weenix.MAP_ANON) (-1) 0 0 =
      ⟨-weenix.EINVAL, [] ++ fput_if none⟩ :=
  c9_fixed_unaligned_is_einval weenix env_files 1 4096 weenix.PROT_READ
    (weenix.MAP_FIXED ||| weenix.MAP_PRIVATE ||| weenix.MAP_ANON) (-1) 0 0 none []
    rfl (by decide) (by decide)

/-- C10: when the descriptor is in range and resolves to a handle `f` that supports
mapping, `prot` has `PROT_WRITE`, `flags` has `MAP_SHARED`, and `f` is not open for
both reading and writing, `do_mmap` returns `-EACCES` whatever the address, length,
offset and other flags; the handle is released and the mapper is not called. -/
theorem c10_shared_write_needs_read_write (c : Consts) (env : Env)
    (addr len prot flags : Nat) (fd : Int) (off : Int) (ret : Nat) (f : file_t)
    (hfd : 0 ≤ fd ∧ fd < c.NFILES) (hf : env.fget fd = some f)
    (hm : f.vn_mmap = true)
    (hw : prot &&& c.PROT_WRITE ≠ 0) (hs : flags &&& c.MAP_SHARED ≠ 0)
    (hrw : ¬ (f.f_mode &&& c.FMODE_READ ≠ 0 ∧ f.f_mode &&& c.FMODE_WRITE ≠ 0)) :
    do_mmap c env addr len prot flags fd off ret =
      ⟨-c.EACCES, [Event.fget fd (some f), Event.fput f]⟩ := by
  have hr : ¬ (fd < 0 ∨ fd ≥ c.NFILES) := by omega
  have hm2 : ¬ (f.vn_mmap = false) := by simp [hm]
  unfold do_mmap do_mmap_resolve
  rw [if_neg hr, hf]
  simp only []
  rw [if_neg hm2]
  by_cases happ : prot &&& c.PROT_WRITE ≠ 0 ∧ f.f_mode &&& c.FMODE_APPEND ≠ 0
  · rw [if_pos happ]
  · rw [if_neg happ, if_pos ⟨hw, hs, hrw⟩]

/-- C10 at a shared writable mapping of the read-only file on descriptor 4. -/
theorem c10_shared_write_needs_read_write_witness :
    do_mmap weenix env_files 0 4096 weenix.PROT_WRITE weenix.MAP_SHARED 4 0 0 =
      ⟨-weenix.EACCES, [Event.fget 4 (some ⟨weenix.FMODE_READ, 8, true⟩),
        Event.fput ⟨weenix.FMODE_READ, 8, true⟩]⟩ :=
  c10_shared_write_needs_read_write weenix env_files 0 4096 weenix.PROT_WRITE
    weenix.MAP_SHARED 4 0 0 ⟨weenix.FMODE_READ, 8, true⟩
    (by decide) (by decide) (by decide) (by decide) (by decide) (by decide)

/-- C4: on every exit path of `do_mmap` the number of `fput` calls equals the number
of `fget` calls that gave a handle: both are `1` when the descriptor is in range and
`fget` gives a handle, both are `0` otherwise; the handle released is the one `fget`
gave; and the reference count of the backing object after the call equals the count
before it. -/
theorem c4_release_balance (c : Consts) (env : Env) (addr len prot flags : Nat)
    (fd : Int) (off : Int) (ret : Nat) (n : Int) :
    releases (do_mmap c env addr len prot flags fd off ret).trace =
      resolutions (do_mmap c env addr len prot flags fd off ret).trace ∧
    ((¬ (fd < 0 ∨ fd ≥ c.NFILES) ∧ (env.fget fd).isSome = true) →
      resolutions (do_mmap c env addr len prot flags fd off ret).trace = 1 ∧
      releases (do_mmap c env addr len prot flags fd off ret).trace = 1) ∧
    (¬ (¬ (fd < 0 ∨ fd ≥ c.NFILES) ∧ (env.fget fd).isSome = true) →
      resolutions (do_mmap c env addr len prot flags fd off ret).trace = 0 ∧
      releases (do_mmap c env addr len prot flags fd off ret).trace = 0) ∧
    (∀ f, Event.fput f ∈ (do_mmap c env addr len prot flags fd off ret).trace →
      env.fget fd = some f) ∧
    refcount_after n (do_mmap c env addr len prot flags fd off ret).trace = n := by
  obtain ⟨pre, mid, post, hpp, hmid, he⟩ :=
    do_mmap_trace_split c env addr len prot flags fd off ret
  obtain ⟨m1, m2, m3, m4⟩ := middle_neutral mid hmid
  unfold releases at m1 ⊢
  unfold resolutions at m2 ⊢
  rw [he]
  simp only [List.countP_append, refcount_after_append, m1, m2, m3, List.mem_append, m4,
    false_or]
  rcases hpp with ⟨rfl, rfl, hfd⟩ | ⟨rfl, rfl, hg, hfd⟩ | ⟨f, rfl, rfl, hg, hfd⟩
  · simp [refcount_after, hfd]
  · simp [refcount_after, refcount_step, hg, Event.isRelease, Event.isResolution]
  · simp [refcount_after, refcount_step, hg, hfd, Event.isRelease, Event.isResolution,
      List.countP_cons]

/-- C5: for every call of `do_mmap`,
(1) a negative result comes with no invalidation and no store through `ret`;
(2) when the mapper was called, the result is `0` or the negative status the mapper
    gave for that very call, so an error raised by a local check is never preceded by a
    mapper call;
(3) when the mapper was not called, the result is one of the local codes `-EBADF`,
    `-EACCES`, `-ENODEV`, `-EINVAL` and there is no invalidation and no store;
(4) no mapper call comes after an invalidation, and an invalidation occurs only in a
    call that contains a mapper call. -/
theorem c5_no_partial_effect (c : Consts) (env : Env) (addr len prot flags : Nat)
    (fd : Int) (off : Int) (ret : Nat) :
    ((do_mmap c env addr len prot flags fd off ret).ret < 0 →
      ∀ e ∈ (do_mmap c env addr len prot flags fd off ret).trace,
        e.isFlush = false ∧ e.isStore = false) ∧
    ((∃ e ∈ (do_mmap c env addr len prot flags fd off ret).trace, e.isMap = true) →
      (do_mmap c env addr len prot flags fd off ret).ret = 0 ∨
      ∃ vn lo np,
        Event.vmmap_map vn lo np prot flags off c.VMMAP_DIR_HILO ∈
          (do_mmap c env addr len prot flags fd off ret).trace ∧
        (do_mmap c env addr len prot flags fd off ret).ret =
          (env.vmmap_map vn lo np prot flags off c.VMMAP_DIR_HILO).1 ∧
        (env.vmmap_map vn lo np prot flags off c.VMMAP_DIR_HILO).1 < 0) ∧
    ((∀ e ∈ (do_mmap c env addr len prot flags fd off ret).trace, e.isMap = false) →
      ((do_mmap c env addr len prot flags fd off ret).ret = -c.EBADF ∨
       (do_mmap c env addr len prot flags fd off ret).ret = -c.EACCES ∨
       (do_mmap c env addr len prot flags fd off ret).ret = -c.ENODEV ∨
       (do_mmap c env addr len prot flags fd off ret).ret = -c.EINVAL) ∧
      ∀ e ∈ (do_mmap c env addr len prot flags fd off ret).trace,
        e.isFlush = false ∧ e.isStore = false) ∧
    (do_mmap c env addr len prot flags fd off ret).trace.Pairwise
      (fun e1 e2 => e1.isFlush = true → e2.isMap = false) ∧
    ((∃ e ∈ (do_mmap c env addr len prot flags fd off ret).trace, e.isFlush = true) →
      ∃ e ∈ (do_mmap c env addr len prot flags fd off ret).trace, e.isMap = true) := by
  obtain ⟨pre, post, hpp, hmid⟩ := do_mmap_form c env addr len prot flags fd off ret
  have hpre : ∀ e ∈ pre, e.isMap = false ∧ e.isFlush = false ∧ e.isStore = false := by
    rcases hpp with ⟨rfl, -⟩ | ⟨rfl, -⟩ | ⟨f, rfl, -⟩ <;>
      simp [Event.isMap, Event.isFlush, Event.isStore]
  have hpost : ∀ e ∈ post, e.isMap = false ∧ e.isFlush = false ∧ e.isStore = false := by
    rcases hpp with ⟨-, rfl, -⟩ | ⟨-, rfl, -⟩ | ⟨f, -, rfl, -⟩ <;>
      simp [Event.isMap, Event.isFlush, Event.isStore]
  rcases hmid with ⟨e, hcode, he⟩ | ⟨vn, lo, np, ⟨hneg, he⟩ | ⟨hpos, he⟩⟩
  · -- a local check ended the call
    have hall : ∀ x ∈ pre ++ post,
        x.isMap = false ∧ x.isFlush = false ∧ x.isStore = false := by
      intro x hx
      rcases List.mem_append.mp hx with h | h
      · exact hpre x h
      · exact hpost x h
    rw [he]
    refine ⟨fun _ x hx => (hall x hx).2, ?_, fun _ => ⟨hcode, fun x hx => (hall x hx).2⟩,
      ?_, ?_⟩
    · rintro ⟨x, hx, hm⟩
      rw [(hall x hx).1] at hm
      exact absurd hm (by simp)
    · have := pairwise_flush_map (pre ++ post) [] (fun x hx => (hall x hx).2.1) (by simp)
      simpa using this
    · rintro ⟨x, hx, hf⟩
      rw [(hall x hx).2.1] at hf
      exact absurd hf (by simp)
  · -- the mapper failed
    have hall : ∀ x ∈ pre ++ [Event.vmmap_map vn lo np prot flags off c.VMMAP_DIR_HILO] ++ post,
        x.isFlush = false ∧ x.isStore = false := by
      intro x hx
      simp only [List.mem_append, List.mem_singleton] at hx
      rcases hx with (h | h) | h
      · exact (hpre x h).2
      · subst h; exact ⟨rfl, rfl⟩
      · exact (hpost x h).2
    have hmem : Event.vmmap_map vn lo np prot flags off c.VMMAP_DIR_HILO ∈
        pre ++ [Event.vmmap_map vn lo np prot flags off c.VMMAP_DIR_HILO] ++ post := by
      simp
    rw [he]
    refine ⟨fun _ x hx => hall x hx, fun _ => Or.inr ⟨vn, lo, np, hmem, rfl, hneg⟩, ?_, ?_, ?_⟩
    · intro hno
      have := hno _ hmem
      simp [Event.isMap] at this
    · have := pairwise_flush_map
        (pre ++ [Event.vmmap_map vn lo np prot flags off c.VMMAP_DIR_HILO] ++ post) []
        (fun x hx => (hall x hx).1) (by simp)
      simpa using this
    · rintro ⟨x, hx, hf⟩
      rw [(hall x hx).1] at hf
      exact absurd hf (by simp)
  · -- the mapper succeeded
    have hmem : Event.vmmap_map vn lo np prot flags off c.VMMAP_DIR_HILO ∈
        pre ++ [Event.vmmap_map vn lo np prot flags off c.VMMAP_DIR_HILO] ++
          tlb_flush_range c (PAGE_ALIGN_DOWN c addr) np ++
          (if ret ≠ 0 then
            [Event.store ret (PN_TO_ADDR c
              (env.vmmap_map vn lo np prot flags off c.VMMAP_DIR_HILO).2)]
           else []) ++ post := by
      simp
    have hA : ∀ x ∈ pre ++ [Event.vmmap_map vn lo np prot flags off c.VMMAP_DIR_HILO],
        x.isFlush = false := by
      intro x hx
      simp only [List.mem_append, List.mem_singleton] at hx
      rcases hx with h | h
      · exact (hpre x h).2.1
      · subst h; rfl
    have hB : ∀ x ∈ tlb_flush_range c (PAGE_ALIGN_DOWN c addr) np ++
          (if ret ≠ 0 then
            [Event.store ret (PN_TO_ADDR c
              (env.vmmap_map vn lo np prot flags off c.VMMAP_DIR_HILO).2)]
           else []) ++ post, x.isMap = false := by
      intro x hx
      simp only [List.mem_append] at hx
      rcases hx with (h | h) | h
      · obtain ⟨a, rfl⟩ := mem_tlb_flush_range c _ _ x h
        rfl
      · split_ifs at h
        · simp only [List.mem_singleton] at h
          subst h; rfl
        · simp at h
      · exact (hpost x h).1
    rw [he]
    refine ⟨fun h => absurd h (by simp), fun _ => Or.inl rfl, ?_, ?_, ?_⟩
    · intro hno
      have := hno _ hmem
      simp [Event.isMap] at this
    · have := pairwise_flush_map _ _ hA hB
      simpa [List.append_assoc] using this
    · intro _
      exact ⟨_, hmem, rfl⟩

/-- C6 as stated fails: the non-fixed request with hint `2^64 - 4096` and length `8192`
passes validation, and the mapper is called with start page `2^52 - 1` and page count
`2^64 - 2^52 + 2`, whereas the unbounded formula gives
`ceil((addr + len) / 4096) - floor(addr / 4096) = 2`. -/
theorem c6_hint_range_wraps :
    (do_mmap weenix env_nomem (2 ^ 64 - 4096) 8192 weenix.PROT_READ
        (weenix.MAP_PRIVATE ||| weenix.MAP_ANON) (-1) 0 0).trace =
      [Event.vmmap_map none (2 ^ 52 - 1) (2 ^ 64 - 2 ^ 52 + 2) 1 10 0 2] ∧
    (2 ^ 64 - 4096 + 8192) ⌈/⌉ PAGE_SIZE weenix - (2 ^ 64 - 4096) / PAGE_SIZE weenix = 2 ∧
    2 ^ 64 - 2 ^ 52 + 2 ≠
      (2 ^ 64 - 4096 + 8192) ⌈/⌉ PAGE_SIZE weenix - (2 ^ 64 - 4096) / PAGE_SIZE weenix := by
  refine ⟨by decide, ?_, ?_⟩ <;>
    rw [Nat.ceilDiv_eq_add_pred_div] <;> decide

/-- C6 amended: for every request that reaches the mapper and for which `MAP_FIXED` is
set or `addr + len + PAGE_SIZE - 1 < 2^64`, the start page handed to the mapper is
`floor(addr / PAGE_SIZE)` and the page count is
`ceil((addr + len) / PAGE_SIZE) - floor(addr / PAGE_SIZE)` in unbounded arithmetic; the
range handed over is `[floor(addr / PAGE_SIZE), ceil((addr + len) / PAGE_SIZE))`. -/
theorem c6_page_range_formula (c : Consts) (hc : c.Sane) (env : Env)
    (addr len prot flags : Nat) (fd : Int) (off : Int) (ret : Nat)
    (vn : Option Nat) (lo np pr fl : Nat) (o d : Int)
    (hl : len < WORD)
    (hnw : flags &&& c.MAP_FIXED ≠ 0 ∨ addr + len + (PAGE_SIZE c - 1) < WORD)
    (h : Event.vmmap_map vn lo np pr fl o d ∈
      (do_mmap c env addr len prot flags fd off ret).trace) :
    lo = addr / PAGE_SIZE c ∧
    np = (addr + len) ⌈/⌉ PAGE_SIZE c - addr / PAGE_SIZE c ∧
    lo + np = (addr + len) ⌈/⌉ PAGE_SIZE c := by
  obtain ⟨hlo, hnp, hlen, hfix⟩ := do_mmap_reach c env addr len prot flags fd off ret
    vn lo np pr fl o d h
  have hP := (page_size_bounds c hc).1
  have hP0 : 0 < PAGE_SIZE c := by omega
  obtain ⟨-, hl63⟩ := toS64_pos len hl hlen
  have hnw2 : addr + len + (PAGE_SIZE c - 1) < WORD := by
    rcases hnw with hf | hf
    · obtain ⟨-, -, -, h1, h2, -, -⟩ := hfix hf
      exact fixed_no_wrap c hc addr len hl63 h1 h2
    · exact hf
  have key := npages_no_wrap (PAGE_SIZE c) addr len hnw2
  rw [addr_to_pn_align_up c hP0] at hnp
  unfold ADDR_TO_PN at hlo hnp
  rw [← hnp, ← hlo] at key
  have hceil : (addr + len) ⌈/⌉ PAGE_SIZE c = (addr + len + (PAGE_SIZE c - 1)) / PAGE_SIZE c := by
    rw [Nat.ceilDiv_eq_add_pred_div]
    congr 1
    omega
  rw [hceil, ← key]
  exact ⟨hlo, by omega, by rw [hlo]⟩

/-- The amended C6 at hint `0x3000` and length `0x1001`: pages `3` and `4`. -/
theorem c6_page_range_formula_witness :
    (3 : Nat) = 0x3000 / PAGE_SIZE weenix ∧
    (2 : Nat) = (0x3000 + 0x1001) ⌈/⌉ PAGE_SIZE weenix - 0x3000 / PAGE_SIZE weenix ∧
    3 + 2 = (0x3000 + 0x1001) ⌈/⌉ PAGE_SIZE weenix :=
  c6_page_range_formula weenix (by decide) env_files 0x3000 0x1001 weenix.PROT_READ
    (weenix.MAP_PRIVATE ||| weenix.MAP_ANON) (-1) 0 0 none 3 2 1 10 0 2
    (by decide) (Or.inr (by decide)) (by decide)

/-- C7 as stated fails: the non-fixed request with the unaligned hint `4095` and length
`2` (at most one page) passes validation and the mapper is called with page count `2`,
pages `0` and `1`. -/
theorem c7_unaligned_hint_two_pages :
    (2 : Nat) ≤ PAGE_SIZE weenix ∧
    do_mmap weenix env_files 4095 2 weenix.PROT_READ
        (weenix.MAP_PRIVATE ||| weenix.MAP_ANON) (-1) 0 0 =
      ⟨0, [Event.vmmap_map none 0 2 1 10 0 2, Event.tlb_flush 0, Event.tlb_flush 4096]⟩ := by
  decide

/-- C7 amended: for every request that reaches the mapper with `0 < len ≤ PAGE_SIZE`,
the page count handed to the mapper is `1` exactly when the bytes `[addr, addr + len)`
lie in one page (`addr mod PAGE_SIZE + len ≤ PAGE_SIZE`, true of every page-aligned
address) and `addr + len + PAGE_SIZE - 1 < 2^64` (true of every accepted `MAP_FIXED`
request and of the null hint). -/
theorem c7_one_page_iff (c : Consts) (hc : c.Sane) (env : Env)
    (addr len prot flags : Nat) (fd : Int) (off : Int) (ret : Nat)
    (vn : Option Nat) (lo np pr fl : Nat) (o d : Int)
    (ha : addr < WORD) (hl0 : 0 < len) (hl : len ≤ PAGE_SIZE c)
    (h : Event.vmmap_map vn lo np pr fl o d ∈
      (do_mmap c env addr len prot flags fd off ret).trace) :
    np = 1 ↔
      (PAGE_OFFSET c addr + len ≤ PAGE_SIZE c ∧ addr + len + (PAGE_SIZE c - 1) < WORD) := by
  obtain ⟨-, hnp, -, -⟩ := do_mmap_reach c env addr len prot flags fd off ret
    vn lo np pr fl o d h
  obtain ⟨hP, hP2⟩ := page_size_bounds c hc
  rw [addr_to_pn_align_up c (by omega)] at hnp
  unfold ADDR_TO_PN at hnp
  rw [hnp]
  unfold PAGE_OFFSET
  exact npages_one (PAGE_SIZE c) addr len hP hP2 ha hl0 hl

/-- The amended C7 at the null hint and length `10`. -/
theorem c7_one_page_iff_witness :
    (1 : Nat) = 1 ↔
      (PAGE_OFFSET weenix 0 + 10 ≤ PAGE_SIZE weenix ∧ 0 + 10 + (PAGE_SIZE weenix - 1) < WORD) :=
  c7_one_page_iff weenix (by decide) env_files 0 10 weenix.PROT_READ
    (weenix.MAP_PRIVATE ||| weenix.MAP_ANON) (-1) 0 0 none 0 1 1 10 0 2
    (by decide) (by decide) (by decide) (by decide)

/-- C8: for every request that reaches the mapper, the page count handed to the mapper
is at least `1` (and is a 64-bit word), also when `len` is smaller than a page and when
`addr + len` wraps modulo `2^64`. -/
theorem c8_page_count_positive (c : Consts) (hc : c.Sane) (env : Env)
    (addr len prot flags : Nat) (fd : Int) (off : Int) (ret : Nat)
    (vn : Option Nat) (lo np pr fl : Nat) (o d : Int)
    (ha : addr < WORD) (hl : len < WORD)
    (h : Event.vmmap_map vn lo np pr fl o d ∈
      (do_mmap c env addr len prot flags fd off ret).trace) :
    1 ≤ np ∧ np < WORD := by
  obtain ⟨-, hnp, hlen, -⟩ := do_mmap_reach c env addr len prot flags fd off ret
    vn lo np pr fl o d h
  obtain ⟨hP, hP2⟩ := page_size_bounds c hc
  obtain ⟨hl0, hl63⟩ := toS64_pos len hl hlen
  constructor
  · rw [addr_to_pn_align_up c (by omega)] at hnp
    unfold ADDR_TO_PN at hnp
    rw [hnp]
    exact npages_pos (PAGE_SIZE c) addr len (by omega) hP2 ha hl0 hl63
  · rw [hnp]
    unfold sub64
    exact Nat.mod_lt _ (by unfold WORD; norm_num)

/-- C8 at the hint `2^64 - 4096` with length `8192`, where `addr + len` wraps. -/
theorem c8_page_count_positive_witness :
    1 ≤ 2 ^ 64 - 2 ^ 52 + 2 ∧ 2 ^ 64 - 2 ^ 52 + 2 < WORD :=
  c8_page_count_positive weenix (by decide) env_nomem (2 ^ 64 - 4096) 8192
    weenix.PROT_READ (weenix.MAP_PRIVATE ||| weenix.MAP_ANON) (-1) 0 0
    none (2 ^ 52 - 1) (2 ^ 64 - 2 ^ 52 + 2) 1 10 0 2 (by decide) (by decide) (by decide)

/-! ### Further facts about calls -/

/-- The events of the lookup and release parts of a trace are not mapper calls,
invalidations or stores. -/
theorem file_events_plain (fd : Int) (l : List Event)
    (h : l = [] ∨ l = [Event.fget fd none] ∨ (∃ f, l = [Event.fget fd (some f)]) ∨
      (∃ f, l = [Event.fput f])) :
    ∀ e ∈ l, e.isMap = false ∧ e.isFlush = false ∧ e.isStore = false := by
  rcases h with rfl | rfl | ⟨f, rfl⟩ | ⟨f, rfl⟩ <;>
    simp [Event.isMap, Event.isFlush, Event.isStore]

/-- A mapper call recorded by `do_mmap` carries the caller's `prot`, `flags` and `off`
and the direction `VMMAP_DIR_HILO`.  When its status is negative that status is the
result and nothing is flushed or stored; otherwise the result is `0`, the flushes are
those of `tlb_flush_range` on the rounded-down address, and the only store, made when
`ret` is not null, writes the byte address of the page `new_vma->vma_start`. -/
theorem do_mmap_map_event (c : Consts) (env : Env) (addr len prot flags : Nat) (fd : Int)
    (off : Int) (ret : Nat) (vn : Option Nat) (lo np pr fl : Nat) (o d : Int)
    (h : Event.vmmap_map vn lo np pr fl o d ∈
      (do_mmap c env addr len prot flags fd off ret).trace) :
    pr = prot ∧ fl = flags ∧ o = off ∧ d = c.VMMAP_DIR_HILO ∧
    (((env.vmmap_map vn lo np pr fl o d).1 < 0 ∧
        (do_mmap c env addr len prot flags fd off ret).ret =
          (env.vmmap_map vn lo np pr fl o d).1 ∧
        (do_mmap c env addr len prot flags fd off ret).trace.filter Event.isStore = [] ∧
        (do_mmap c env addr len prot flags fd off ret).trace.filter Event.isFlush = []) ∨
     (¬ (env.vmmap_map vn lo np pr fl o d).1 < 0 ∧
        (do_mmap c env addr len prot flags fd off ret).ret = 0 ∧
        (do_mmap c env addr len prot flags fd off ret).trace.filter Event.isStore =
          (if ret ≠ 0 then
            [Event.store ret (PN_TO_ADDR c (env.vmmap_map vn lo np pr fl o d).2)]
           else []) ∧
        (do_mmap c env addr len prot flags fd off ret).trace.filter Event.isFlush =
          tlb_flush_range c (PAGE_ALIGN_DOWN c addr) np)) := by
  obtain ⟨pre, post, hpp, hmid⟩ := do_mmap_form c env addr len prot flags fd off ret
  have hpre : ∀ e ∈ pre, e.isMap = false ∧ e.isFlush = false ∧ e.isStore = false := by
    apply file_events_plain fd
    rcases hpp with ⟨h1, -⟩ | ⟨h1, -⟩ | ⟨f, h1, -⟩
    · exact Or.inl h1
    · exact Or.inr (Or.inl h1)
    · exact Or.inr (Or.inr (Or.inl ⟨f, h1⟩))
  have hpost : ∀ e ∈ post, e.isMap = false ∧ e.isFlush = false ∧ e.isStore = false := by
    apply file_events_plain fd
    rcases hpp with ⟨-, h1, -⟩ | ⟨-, h1, -⟩ | ⟨f, -, h1, -⟩
    · exact Or.inl h1
    · exact Or.inl h1
    · exact Or.inr (Or.inr (Or.inr ⟨f, h1⟩))
  have npre : Event.vmmap_map vn lo np pr fl o d ∉ pre := fun hm => by
    have := (hpre _ hm).1
    simp [Event.isMap] at this
  have npost : Event.vmmap_map vn lo np pr fl o d ∉ post := fun hm => by
    have := (hpost _ hm).1
    simp [Event.isMap] at this
  have fpre1 : pre.filter Event.isStore = [] :=
    List.filter_eq_nil_iff.mpr (fun a ha => by simp [(hpre a ha).2.2])
  have fpre2 : pre.filter Event.isFlush = [] :=
    List.filter_eq_nil_iff.mpr (fun a ha => by simp [(hpre a ha).2.1])
  have fpost1 : post.filter Event.isStore = [] :=
    List.filter_eq_nil_iff.mpr (fun a ha => by simp [(hpost a ha).2.2])
  have fpost2 : post.filter Event.isFlush = [] :=
    List.filter_eq_nil_iff.mpr (fun a ha => by simp [(hpost a ha).2.1])
  rcases hmid with ⟨e, -, he⟩ | ⟨vn1, lo1, np1, ⟨hneg, he⟩ | ⟨hpos, he⟩⟩
  · rw [he] at h
    simp only [List.mem_append] at h
    rcases h with h | h
    · exact absurd h npre
    · exact absurd h npost
  · have key : Event.vmmap_map vn lo np pr fl o d =
        Event.vmmap_map vn1 lo1 np1 prot flags off c.VMMAP_DIR_HILO := by
      rw [he] at h
      simp only [List.mem_append, List.mem_singleton] at h
      rcases h with (h | h) | h
      · exact absurd h npre
      · exact h
      · exact absurd h npost
    simp only [Event.vmmap_map.injEq] at key
    obtain ⟨rfl, rfl, rfl, rfl, rfl, rfl, rfl⟩ := key
    refine ⟨rfl, rfl, rfl, rfl, Or.inl ⟨hneg, by rw [he], ?_, ?_⟩⟩
    · rw [he]
      simp [List.filter_append, fpre1, fpost1, List.filter_cons, Event.isStore]
    · rw [he]
      simp [List.filter_append, fpre2, fpost2, List.filter_cons, Event.isFlush]
  · have nfl : Event.vmmap_map vn lo np pr fl o d ∉
        tlb_flush_range c (PAGE_ALIGN_DOWN c addr) np1 := fun hm => by
      obtain ⟨a, ha⟩ := mem_tlb_flush_range c _ _ _ hm
      exact absurd ha (by simp)
    have key : Event.vmmap_map vn lo np pr fl o d =
        Event.vmmap_map vn1 lo1 np1 prot flags off c.VMMAP_DIR_HILO := by
      rw [he] at h
      simp only [List.mem_append, List.mem_singleton] at h
      rcases h with (((h | h) | h) | h) | h
      · exact absurd h npre
      · exact h
      · exact absurd h nfl
      · split_ifs at h <;> simp at h
      · exact absurd h npost
    simp only [Event.vmmap_map.injEq] at key
    obtain ⟨rfl, rfl, rfl, rfl, rfl, rfl, rfl⟩ := key
    have ffl1 : (tlb_flush_range c (PAGE_ALIGN_DOWN c addr) np).filter Event.isStore = [] :=
      List.filter_eq_nil_iff.mpr (fun a ha => by
        obtain ⟨b, rfl⟩ := mem_tlb_flush_range c _ _ a ha
        simp [Event.isStore])
    have ffl2 : (tlb_flush_range c (PAGE_ALIGN_DOWN c addr) np).filter Event.isFlush =
        tlb_flush_range c (PAGE_ALIGN_DOWN c addr) np :=
      List.filter_eq_self.mpr (fun a ha => by
        obtain ⟨b, rfl⟩ := mem_tlb_flush_range c _ _ a ha
        rfl)
    refine ⟨rfl, rfl, rfl, rfl, Or.inr ⟨hpos, by rw [he], ?_, ?_⟩⟩
    · rw [he]
      simp only [List.filter_append, fpre1, fpost1, ffl1, List.nil_append, List.append_nil]
      split_ifs <;> simp [List.filter_cons, Event.isStore]
    · rw [he]
      simp only [List.filter_append, fpre2, fpost2, ffl2, List.nil_append, List.append_nil]
      split_ifs <;> simp [List.filter_cons, Event.isFlush]

/-- The two ways `do_munmap` can end: `-EINVAL` without any event when one of its three
checks fires, or one call of `vmmap_remove` on the computed page range whose status is
the result. -/
theorem do_munmap_shape (c : Consts) (env : Env) (addr len : Nat) :
    ((len = 0 ∨ ¬ PAGE_ALIGNED c addr ∨
        (addr < c.USER_MEM_LOW ∨ addr ≥ c.USER_MEM_HIGH ∨
          (addr + len) % WORD ≥ c.USER_MEM_HIGH ∨ (addr + len) % WORD < c.USER_MEM_LOW ∨
          len ≥ c.USER_MEM_HIGH)) ∧
      do_munmap c env addr len = ⟨-c.EINVAL, []⟩) ∨
    ((len ≠ 0 ∧ PAGE_ALIGNED c addr ∧ c.USER_MEM_LOW ≤ addr ∧ addr < c.USER_MEM_HIGH ∧
        (addr + len) % WORD < c.USER_MEM_HIGH ∧ c.USER_MEM_LOW ≤ (addr + len) % WORD ∧
        len < c.USER_MEM_HIGH) ∧
      do_munmap c env addr len =
        ⟨env.vmmap_remove (ADDR_TO_PN c (PAGE_ALIGN_DOWN c addr))
            (sub64 (ADDR_TO_PN c (PAGE_ALIGN_UP c ((addr + len) % WORD)))
              (ADDR_TO_PN c (PAGE_ALIGN_DOWN c addr))),
          [Event.vmmap_remove (ADDR_TO_PN c (PAGE_ALIGN_DOWN c addr))
            (sub64 (ADDR_TO_PN c (PAGE_ALIGN_UP c ((addr + len) % WORD)))
              (ADDR_TO_PN c (PAGE_ALIGN_DOWN c addr)))]⟩) := by
  unfold do_munmap
  by_cases h1 : len = 0
  · left; exact ⟨Or.inl h1, by rw [if_pos h1]⟩
  by_cases h2 : ¬ PAGE_ALIGNED c addr
  · left; exact ⟨Or.inr (Or.inl h2), by rw [if_neg h1, if_pos h2]⟩
  by_cases h3 : addr < c.USER_MEM_LOW ∨ addr ≥ c.USER_MEM_HIGH ∨
      (addr + len) % WORD ≥ c.USER_MEM_HIGH ∨ (addr + len) % WORD < c.USER_MEM_LOW ∨
      len ≥ c.USER_MEM_HIGH
  · left; exact ⟨Or.inr (Or.inr h3), by rw [if_neg h1, if_neg h2, if_pos h3]⟩
  right
  refine ⟨?_, by rw [if_neg h1, if_neg h2, if_neg h3]⟩
  have h2a := not_not.mp h2
  simp only [not_or, not_lt, ge_iff_le, not_le] at h3
  exact ⟨h1, h2a, h3.1, h3.2.1, h3.2.2.1, h3.2.2.2.1, h3.2.2.2.2⟩

/-- The page number of a rounded-down address is the page number of the address. -/
theorem addr_to_pn_align_down (c : Consts) (x : Nat) :
    ADDR_TO_PN c (PAGE_ALIGN_DOWN c x) = ADDR_TO_PN c x := by
  unfold ADDR_TO_PN PAGE_ALIGN_DOWN
  exact Nat.mul_div_cancel _ (Nat.pow_pos (by norm_num))

/-- The byte address of a page number is page-aligned, whatever the page number, as
long as a page is no larger than the address space. -/
theorem pn_to_addr_aligned (c : Consts) (hs : c.PAGE_SHIFT ≤ 64) (x : Nat) :
    PAGE_ALIGNED c (PN_TO_ADDR c x) := by
  unfold PAGE_ALIGNED PAGE_OFFSET PN_TO_ADDR WORD PAGE_SIZE
  rw [Nat.mod_mod_of_dvd _ (Nat.pow_dvd_pow 2 hs)]
  exact Nat.mul_mod_left _ _

/-- The events of `tlb_flush_range`, in closed form. -/
theorem tlb_flush_range_eq_map (c : Consts) (n : Nat) :
    ∀ v, v < WORD → tlb_flush_range c v n =
      (List.range n).map (fun i => Event.tlb_flush ((v + i * PAGE_SIZE c) % WORD)) := by
  induction n with
  | zero => intro v _; rfl
  | succ k ih =>
    intro v hv
    have hW : 0 < WORD := by unfold WORD; norm_num
    rw [List.range_succ_eq_map, tlb_flush_range, ih _ (Nat.mod_lt _ hW)]
    simp only [tlb_flush, List.singleton_append, List.map_cons, List.map_map, zero_mul,
      add_zero, Nat.mod_eq_of_lt hv]
    congr 1
    apply List.map_congr_left
    intro i _
    simp only [Function.comp, Nat.succ_eq_add_one]
    congr 1
    rw [Nat.mod_add_mod]
    congr 1
    ring

/-- The counted loop, started at `i` with `k` iterations left and one more unit of fuel,
ends and produces the events of `tlb_flush_range` for `k` pages. -/
theorem tlb_flush_range_loop_eq (c : Consts) (count : Nat) (hn : count < WORD) (k : Nat) :
    ∀ i v, i + k = count →
      tlb_flush_range_loop c count (k + 1) i v = some (tlb_flush_range c v k) := by
  induction k with
  | zero =>
    intro i v h
    have hi : ¬ i < count := by omega
    simp [tlb_flush_range_loop, tlb_flush_range, hi]
  | succ m ih =>
    intro i v h
    have hi : i < count := by omega
    have hi1 : (i + 1) % WORD = i + 1 := Nat.mod_eq_of_lt (by omega)
    rw [tlb_flush_range_loop, if_pos hi, hi1, ih (i + 1) _ (by omega)]
    simp [tlb_flush_range]

/-- What the checks of the resolution stage have established when it lets the call
continue: without a handle, the descriptor is out of range and `MAP_ANON` is set; with a
handle `f`, the descriptor is in range, `f` is what `fget` gave, its vnode has an `mmap`
operation, and neither the write/append test nor the shared-write test fired. -/
theorem do_mmap_resolve_ok_checks (c : Consts) (env : Env) (prot flags : Nat) (fd : Int)
    (file : Option file_t) (tr : List Event)
    (h : do_mmap_resolve c env prot flags fd = .ok (file, tr)) :
    (file = none ∧ (fd < 0 ∨ fd ≥ c.NFILES) ∧ flags &&& c.MAP_ANON ≠ 0) ∨
    (∃ f, file = some f ∧ env.fget fd = some f ∧ ¬ (fd < 0 ∨ fd ≥ c.NFILES) ∧
      f.vn_mmap = true ∧
      ¬ (prot &&& c.PROT_WRITE ≠ 0 ∧ f.f_mode &&& c.FMODE_APPEND ≠ 0) ∧
      ¬ (prot &&& c.PROT_WRITE ≠ 0 ∧ flags &&& c.MAP_SHARED ≠ 0 ∧
          ¬ (f.f_mode &&& c.FMODE_READ ≠ 0 ∧ f.f_mode &&& c.FMODE_WRITE ≠ 0))) := by
  unfold do_mmap_resolve at h
  split at h
  · rename_i hfd
    split at h
    · exact absurd h (by simp)
    · rename_i hanon
      simp only [Except.ok.injEq, Prod.mk.injEq] at h
      exact Or.inl ⟨h.1.symm, hfd, hanon⟩
  · rename_i hfd
    split at h
    · exact absurd h (by simp)
    · rename_i f hf
      split_ifs at h with h1 h2 h3 h4
      simp only [Except.ok.injEq, Prod.mk.injEq] at h
      exact Or.inr ⟨f, h.1.symm, hf, hfd, by simpa using h1, h2, h3⟩

/-- The vnode handed to the mapper is the vnode of the handle left by the resolution
stage, and no vnode when that stage left no handle. -/
theorem do_mmap_reach_file (c : Consts) (env : Env) (addr len prot flags : Nat) (fd : Int)
    (off : Int) (ret : Nat) (vn : Option Nat) (lo np pr fl : Nat) (o d : Int)
    (h : Event.vmmap_map vn lo np pr fl o d ∈
      (do_mmap c env addr len prot flags fd off ret).trace) :
    ∃ file tr, do_mmap_resolve c env prot flags fd = .ok (file, tr) ∧
      vn = file.map (fun f => f.f_vnode) := by
  unfold do_mmap at h
  split at h
  · rename_i o1 ho
    obtain ⟨-, ht⟩ := do_mmap_resolve_error c env prot flags fd o1 ho
    rcases ht with ⟨ht, -⟩ | ⟨ht, -⟩ | ⟨f, ht, -⟩ <;> rw [ht] at h <;> simp at h
  · rename_i file tr hr
    refine ⟨file, tr, hr, ?_⟩
    have htr : Event.vmmap_map vn lo np pr fl o d ∉ tr := by
      rcases do_mmap_resolve_ok c env prot flags fd file tr hr with ⟨-, ht, -⟩ | ⟨f, -, ht, -⟩ <;>
        rw [ht] <;> simp
    have hfp : Event.vmmap_map vn lo np pr fl o d ∉ fput_if file := by
      unfold fput_if; cases file <;> simp
    rcases do_mmap_map_shape c env file tr addr len prot flags off ret with
      he | ⟨-, -, -, -, -, lo1, np1, -, -, hcase⟩
    · rw [he] at h
      simp only [List.mem_append] at h
      rcases h with h | h
      · exact absurd h htr
      · exact absurd h hfp
    · have hfl : ∀ n v, Event.vmmap_map vn lo np pr fl o d ∉ tlb_flush_range c v n := by
        intro n v hm
        obtain ⟨a, ha⟩ := mem_tlb_flush_range c n v _ hm
        exact absurd ha (by simp)
      have key : Event.vmmap_map vn lo np pr fl o d =
          Event.vmmap_map (file.map (fun f => f.f_vnode)) lo1 np1 prot flags off
            c.VMMAP_DIR_HILO := by
        rcases hcase with ⟨-, he⟩ | ⟨-, he⟩
        · rw [he] at h
          simp only [List.mem_append, List.mem_singleton] at h
          rcases h with (h | h) | h
          · exact absurd h htr
          · exact h
          · exact absurd h hfp
        · rw [he] at h
          simp only [List.mem_append, List.mem_singleton] at h
          rcases h with (((h | h) | h) | h) | h
          · exact absurd h htr
          · exact h
          · exact absurd h (hfl _ _)
          · split_ifs at h <;> simp at h
          · exact absurd h hfp
      simp only [Event.vmmap_map.injEq] at key
      exact key.1

/-! ### The claims, continued -/

/-- C11: a request that passes the resolution stage (anonymous with an out-of-range
descriptor, or a handle that passed every backing-object check) is refused with
`-EINVAL`, without any mapper call, as soon as one of these holds: `MAP_FIXED` is set
and `addr` is null or not page-aligned; `off` is not page-aligned; `len` read as a
signed value is `≤ 0` (in particular `len = 0` or `len ≥ 2^63`); `off < 0`; neither
`MAP_PRIVATE` nor `MAP_SHARED` is set; `MAP_FIXED` is set and `[addr, addr + len)` is
not inside `[USER_MEM_LOW, USER_MEM_HIGH)`, the sum taken in unbounded arithmetic. -/
theorem c11_invalid_arguments (c : Consts) (hc : c.Sane) (env : Env)
    (addr len prot flags : Nat) (fd : Int) (off : Int) (ret : Nat)
    (file : Option file_t) (tr : List Event) (hl : len < WORD)
    (hres : do_mmap_resolve c env prot flags fd = .ok (file, tr))
    (hbad : (flags &&& c.MAP_FIXED ≠ 0 ∧ (addr = 0 ∨ ¬ PAGE_ALIGNED c addr)) ∨
      ¬ PAGE_ALIGNED c (toU64 off) ∨
      toS64 len ≤ 0 ∨ len = 0 ∨ 2 ^ 63 ≤ len ∨
      off < 0 ∨
      (flags &&& c.MAP_PRIVATE = 0 ∧ flags &&& c.MAP_SHARED = 0) ∨
      (flags &&& c.MAP_FIXED ≠ 0 ∧
        (addr < c.USER_MEM_LOW ∨ c.USER_MEM_HIGH < addr + len))) :
    do_mmap c env addr len prot flags fd off ret = ⟨-c.EINVAL, tr ++ fput_if file⟩ := by
  unfold do_mmap
  rw [hres]
  rcases do_mmap_map_shape c env file tr addr len prot flags off ret with
    he | ⟨hfix, haoff, hlen, hoff, hsh, -⟩
  · exact he
  · exfalso
    obtain ⟨hl0, hl63⟩ := toS64_pos len hl hlen
    obtain ⟨-, -, hu⟩ := hc
    rcases hbad with ⟨hf, h⟩ | h | h | h | h | h | ⟨h1, h2⟩ | ⟨hf, h⟩
    · obtain ⟨ha, hz, -⟩ := hfix hf
      rcases h with h | h
      · exact hz h
      · exact h ha
    · exact h haoff
    · omega
    · omega
    · omega
    · omega
    · rcases hsh with h | h
      · exact h h1
      · exact h h2
    · obtain ⟨-, -, g1, g2, g3, -, -⟩ := hfix hf
      unfold WORD at g3
      omega

/-- C11 at a zero-length anonymous private request. -/
theorem c11_invalid_arguments_witness :
    do_mmap weenix env_files 0 0 weenix.PROT_READ
        (weenix.MAP_PRIVATE ||| weenix.MAP_ANON) (-1) 0 0 =
      ⟨-weenix.EINVAL, [] ++ fput_if none⟩ :=
  c11_invalid_arguments weenix (by decide) env_files 0 0 weenix.PROT_READ
    (weenix.MAP_PRIVATE ||| weenix.MAP_ANON) (-1) 0 0 none [] (by decide) rfl
    (Or.inr (Or.inr (Or.inr (Or.inl rfl))))

/-- C12: when the descriptor is outside `[0, NFILES)` and `MAP_ANON` is clear, `do_mmap`
returns `-EBADF` and produces no event at all (no lookup); when the descriptor is
inside `[0, NFILES)` and `fget` gives no open file, `do_mmap` returns `-EACCES` and its
only event is the failed lookup.  In both cases there is no release and no mapper
call. -/
theorem c12_descriptor_resolution (c : Consts) (env : Env) (addr len prot flags : Nat)
    (fd : Int) (off : Int) (ret : Nat) :
    (((fd < 0 ∨ fd ≥ c.NFILES) ∧ flags &&& c.MAP_ANON = 0) →
      do_mmap c env addr len prot flags fd off ret = ⟨-c.EBADF, []⟩) ∧
    ((0 ≤ fd ∧ fd < c.NFILES ∧ env.fget fd = none) →
      do_mmap c env addr len prot flags fd off ret = ⟨-c.EACCES, [Event.fget fd none]⟩) := by
  constructor
  · rintro ⟨hfd, hanon⟩
    unfold do_mmap do_mmap_resolve
    rw [if_pos hfd, if_pos hanon]
  · rintro ⟨h0, h1, hf⟩
    have hfd : ¬ (fd < 0 ∨ fd ≥ c.NFILES) := by omega
    unfold do_mmap do_mmap_resolve
    rw [if_neg hfd, hf]

/-- C13, evaluated where the code departs from it: the anonymous request
`mmap(NULL, 4096, PROT_READ, MAP_PRIVATE|MAP_ANON, 4, 0)` on the open, mappable file of
descriptor 4 looks the file up and reaches the mapper with the file's vnode `8`, so both
the anonymous flag and a backing object are present; the same request on descriptor
`-1` reaches the mapper without any vnode; and on descriptor 5, whose vnode has no
`mmap` operation, the anonymous request is refused with `-ENODEV`.  `MAP_ANON` is
honoured only when the descriptor is out of range. -/
theorem c13_anonymous_with_file :
    (weenix.MAP_PRIVATE ||| weenix.MAP_ANON) &&& weenix.MAP_ANON ≠ 0 ∧
    env_files.fget 4 = some ⟨weenix.FMODE_READ, 8, true⟩ ∧
    do_mmap weenix env_files 0 4096 weenix.PROT_READ
        (weenix.MAP_PRIVATE ||| weenix.MAP_ANON) 4 0 0 =
      ⟨0, [Event.fget 4 (some ⟨weenix.FMODE_READ, 8, true⟩),
            Event.vmmap_map (some 8) 0 1 1 10 0 2, Event.tlb_flush 0,
            Event.fput ⟨weenix.FMODE_READ, 8, true⟩]⟩ ∧
    do_mmap weenix env_files 0 4096 weenix.PROT_READ
        (weenix.MAP_PRIVATE ||| weenix.MAP_ANON) (-1) 0 0 =
      ⟨0, [Event.vmmap_map none 0 1 1 10 0 2, Event.tlb_flush 0]⟩ ∧
    do_mmap weenix env_devices 0 4096 weenix.PROT_READ
        (weenix.MAP_PRIVATE ||| weenix.MAP_ANON) 5 0 0 =
      ⟨-weenix.ENODEV,
        [Event.fget 5 (some ⟨weenix.FMODE_READ ||| weenix.FMODE_WRITE, 9, false⟩),
          Event.fput ⟨weenix.FMODE_READ ||| weenix.FMODE_WRITE, 9, false⟩]⟩ := by
  decide

/-- Which vnode `do_mmap` hands to the mapper, as the code stands: none when the
descriptor is out of range (and then `MAP_ANON` is set), and the vnode of the mappable
handle given by `fget` when the descriptor is in `[0, NFILES)`, the flag `MAP_ANON`
not being consulted in that branch. -/
theorem do_mmap_vnode_passed (c : Consts) (env : Env) (addr len prot flags : Nat)
    (fd : Int) (off : Int) (ret : Nat) (vn : Option Nat) (lo np pr fl : Nat) (o d : Int)
    (h : Event.vmmap_map vn lo np pr fl o d ∈
      (do_mmap c env addr len prot flags fd off ret).trace) :
    (vn = none ∧ (fd < 0 ∨ fd ≥ c.NFILES) ∧ flags &&& c.MAP_ANON ≠ 0) ∨
    (∃ f, vn = some f.f_vnode ∧ 0 ≤ fd ∧ fd < c.NFILES ∧ env.fget fd = some f ∧
      f.vn_mmap = true) := by
  obtain ⟨file, tr, hres, hvn⟩ := do_mmap_reach_file c env addr len prot flags fd off ret
    vn lo np pr fl o d h
  rcases do_mmap_resolve_ok_checks c env prot flags fd file tr hres with
    ⟨hf, hfd, hanon⟩ | ⟨f, hf, hg, hfd, hm, -⟩
  · left
    rw [hf] at hvn
    exact ⟨hvn, hfd, hanon⟩
  · right
    rw [hf] at hvn
    exact ⟨f, hvn, by omega, by omega, hg, hm⟩

/-- C14: with the descriptor in range and a handle `f` given by `fget`: if the vnode of
`f` has no `mmap` operation the result is `-ENODEV`; if it has one and the write/append
test or the shared-write test fires, the result is `-EACCES`.  In both cases the handle
is released, the mapper is not called, and the address, length, offset and sharing
flags play no part. -/
theorem c14_backing_object_error_first (c : Consts) (env : Env)
    (addr len prot flags : Nat) (fd : Int) (off : Int) (ret : Nat) (f : file_t)
    (hfd : 0 ≤ fd ∧ fd < c.NFILES) (hf : env.fget fd = some f) :
    (f.vn_mmap = false →
      do_mmap c env addr len prot flags fd off ret =
        ⟨-c.ENODEV, [Event.fget fd (some f), Event.fput f]⟩) ∧
    (f.vn_mmap = true →
      ((prot &&& c.PROT_WRITE ≠ 0 ∧ f.f_mode &&& c.FMODE_APPEND ≠ 0) ∨
       (prot &&& c.PROT_WRITE ≠ 0 ∧ flags &&& c.MAP_SHARED ≠ 0 ∧
          ¬ (f.f_mode &&& c.FMODE_READ ≠ 0 ∧ f.f_mode &&& c.FMODE_WRITE ≠ 0))) →
      do_mmap c env addr len prot flags fd off ret =
        ⟨-c.EACCES, [Event.fget fd (some f), Event.fput f]⟩) := by
  have hr : ¬ (fd < 0 ∨ fd ≥ c.NFILES) := by omega
  constructor
  · intro hm
    unfold do_mmap do_mmap_resolve
    rw [if_neg hr, hf]
    simp only []
    rw [if_pos hm]
  · intro hm hbad
    have hm2 : ¬ (f.vn_mmap = false) := by simp [hm]
    unfold do_mmap do_mmap_resolve
    rw [if_neg hr, hf]
    simp only []
    rw [if_neg hm2]
    by_cases happ : prot &&& c.PROT_WRITE ≠ 0 ∧ f.f_mode &&& c.FMODE_APPEND ≠ 0
    · rw [if_pos happ]
    · rcases hbad with h | h
      · exact absurd h happ
      · rw [if_neg happ, if_pos h]

/-- C14 at the file of descriptor 5, whose vnode has no `mmap` operation, with an
unaligned fixed address, no sharing flag and length zero: the result is `-ENODEV`. -/
theorem c14_backing_object_error_first_witness :
    do_mmap weenix env_devices 1 0 weenix.PROT_READ weenix.MAP_FIXED 5 7 0 =
      ⟨-weenix.ENODEV,
        [Event.fget 5 (some ⟨weenix.FMODE_READ ||| weenix.FMODE_WRITE, 9, false⟩),
          Event.fput ⟨weenix.FMODE_READ ||| weenix.FMODE_WRITE, 9, false⟩]⟩ :=
  (c14_backing_object_error_first weenix env_devices 1 0 weenix.PROT_READ weenix.MAP_FIXED
    5 7 0 ⟨weenix.FMODE_READ ||| weenix.FMODE_WRITE, 9, false⟩ (by decide) (by decide)).1 rfl

/-- C15: (1) when `do_mmap` has called the mapper and the mapper's status is negative,
`do_mmap` returns exactly that status; (2) when the three checks of `do_munmap` pass,
`do_munmap` makes exactly one call of the remover and returns exactly its status;
(3) whenever a remover call is recorded, the result of `do_munmap` is the status of
that call and the call is the only event. -/
theorem c15_collaborator_status_unchanged (c : Consts) (env : Env)
    (addr len prot flags : Nat) (fd : Int) (off : Int) (ret : Nat) (uaddr ulen : Nat) :
    (∀ vn lo np pr fl o d,
      Event.vmmap_map vn lo np pr fl o d ∈
        (do_mmap c env addr len prot flags fd off ret).trace →
      (env.vmmap_map vn lo np pr fl o d).1 < 0 →
      (do_mmap c env addr len prot flags fd off ret).ret =
        (env.vmmap_map vn lo np pr fl o d).1) ∧
    ((ulen ≠ 0 ∧ PAGE_ALIGNED c uaddr ∧
        ¬ (uaddr < c.USER_MEM_LOW ∨ uaddr ≥ c.USER_MEM_HIGH ∨
          (uaddr + ulen) % WORD ≥ c.USER_MEM_HIGH ∨ (uaddr + ulen) % WORD < c.USER_MEM_LOW ∨
          ulen ≥ c.USER_MEM_HIGH)) →
      ∃ lo np, do_munmap c env uaddr ulen =
        ⟨env.vmmap_remove lo np, [Event.vmmap_remove lo np]⟩) ∧
    (∀ lo np, Event.vmmap_remove lo np ∈ (do_munmap c env uaddr ulen).trace →
      do_munmap c env uaddr ulen = ⟨env.vmmap_remove lo np, [Event.vmmap_remove lo np]⟩) := by
  refine ⟨?_, ?_, ?_⟩
  · intro vn lo np pr fl o d h hneg
    obtain ⟨-, -, -, -, hcase⟩ := do_mmap_map_event c env addr len prot flags fd off ret
      vn lo np pr fl o d h
    rcases hcase with ⟨-, hr, -⟩ | ⟨hpos, -⟩
    · exact hr
    · exact absurd hneg hpos
  · rintro ⟨h1, h2, h3⟩
    rcases do_munmap_shape c env uaddr ulen with ⟨hbad, -⟩ | ⟨-, he⟩
    · rcases hbad with h | h | h
      · exact absurd h h1
      · exact absurd h2 h
      · exact absurd h h3
    · exact ⟨_, _, he⟩
  · intro lo np h
    rcases do_munmap_shape c env uaddr ulen with ⟨-, he⟩ | ⟨-, he⟩
    · rw [he] at h
      simp at h
    · rw [he] at h
      simp only [List.mem_singleton, Event.vmmap_remove.injEq] at h
      obtain ⟨rfl, rfl⟩ := h
      exact he

/-- C16: when `do_mmap` has called the mapper and the mapper's status is not negative,
`do_mmap` returns `0`.  If `ret` is not null, the one store of the call writes, through
`ret`, the byte address of the page `new_vma->vma_start` (the page number shifted left
as a 64-bit word), which is page-aligned and equals `vma_start * PAGE_SIZE` whenever
that product is a 64-bit value.  If `ret` is null, nothing is stored. -/
theorem c16_success_result (c : Consts) (hs : c.PAGE_SHIFT ≤ 64) (env : Env)
    (addr len prot flags : Nat) (fd : Int) (off : Int) (ret : Nat)
    (vn : Option Nat) (lo np pr fl : Nat) (o d : Int)
    (h : Event.vmmap_map vn lo np pr fl o d ∈
      (do_mmap c env addr len prot flags fd off ret).trace)
    (hok : ¬ (env.vmmap_map vn lo np pr fl o d).1 < 0) :
    (do_mmap c env addr len prot flags fd off ret).ret = 0 ∧
    (ret ≠ 0 →
      (do_mmap c env addr len prot flags fd off ret).trace.filter Event.isStore =
        [Event.store ret (PN_TO_ADDR c (env.vmmap_map vn lo np pr fl o d).2)] ∧
      PAGE_ALIGNED c (PN_TO_ADDR c (env.vmmap_map vn lo np pr fl o d).2) ∧
      ((env.vmmap_map vn lo np pr fl o d).2 * PAGE_SIZE c < WORD →
        PN_TO_ADDR c (env.vmmap_map vn lo np pr fl o d).2 =
          (env.vmmap_map vn lo np pr fl o d).2 * PAGE_SIZE c)) ∧
    (ret = 0 →
      (do_mmap c env addr len prot flags fd off ret).trace.filter Event.isStore = []) := by
  obtain ⟨-, -, -, -, hcase⟩ := do_mmap_map_event c env addr len prot flags fd off ret
    vn lo np pr fl o d h
  rcases hcase with ⟨hneg, -⟩ | ⟨-, hr, hst, -⟩
  · exact absurd hneg hok
  · refine ⟨hr, ?_, ?_⟩
    · intro hret
      rw [if_pos hret] at hst
      refine ⟨hst, pn_to_addr_aligned c hs _, ?_⟩
      intro hlt
      unfold PN_TO_ADDR
      exact Nat.mod_eq_of_lt hlt
    · intro hret
      rw [if_neg (by simpa using hret)] at hst
      exact hst

/-- C16 at `mmap(NULL, 4096, PROT_READ, MAP_PRIVATE|MAP_ANON, -1, 0)` with the output
slot `0x1000`: the result is `0` and the slot receives `0x7ffffffff000`. -/
theorem c16_success_result_witness :
    (do_mmap weenix env_files 0 4096 weenix.PROT_READ
        (weenix.MAP_PRIVATE ||| weenix.MAP_ANON) (-1) 0 0x1000).ret = 0 ∧
    ((0x1000 : Nat) ≠ 0 →
      (do_mmap weenix env_files 0 4096 weenix.PROT_READ
          (weenix.MAP_PRIVATE ||| weenix.MAP_ANON) (-1) 0 0x1000).trace.filter Event.isStore =
        [Event.store 0x1000 (PN_TO_ADDR weenix (env_files.vmmap_map none 0 1 1 10 0 2).2)] ∧
      PAGE_ALIGNED weenix (PN_TO_ADDR weenix (env_files.vmmap_map none 0 1 1 10 0 2).2) ∧
      ((env_files.vmmap_map none 0 1 1 10 0 2).2 * PAGE_SIZE weenix < WORD →
        PN_TO_ADDR weenix (env_files.vmmap_map none 0 1 1 10 0 2).2 =
          (env_files.vmmap_map none 0 1 1 10 0 2).2 * PAGE_SIZE weenix)) ∧
    ((0x1000 : Nat) = 0 →
      (do_mmap weenix env_files 0 4096 weenix.PROT_READ
          (weenix.MAP_PRIVATE ||| weenix.MAP_ANON) (-1) 0 0x1000).trace.filter Event.isStore =
        []) :=
  c16_success_result weenix (by decide) env_files 0 4096 weenix.PROT_READ
    (weenix.MAP_PRIVATE ||| weenix.MAP_ANON) (-1) 0 0x1000 none 0 1 1 10 0 2
    (by decide) (by decide)

/-- C17: `do_munmap` returns `-EINVAL` and records no event (the remover is not called)
when `len` is zero, or `addr` is not page-aligned, or `[addr, addr + len)` is not
inside `[USER_MEM_LOW, USER_MEM_HIGH)`, the end `addr + len` being taken in unbounded
arithmetic, which covers every sum that wraps modulo `2^64`. -/
theorem c17_munmap_invalid (c : Consts) (hH : c.USER_MEM_HIGH ≤ 2 ^ 63) (env : Env)
    (addr len : Nat)
    (hbad : len = 0 ∨ ¬ PAGE_ALIGNED c addr ∨ addr < c.USER_MEM_LOW ∨
      c.USER_MEM_HIGH < addr + len) :
    do_munmap c env addr len = ⟨-c.EINVAL, []⟩ := by
  rcases do_munmap_shape c env addr len with ⟨-, he⟩ | ⟨⟨h1, h2, h3, h4, h5, h6, h7⟩, -⟩
  · exact he
  · exfalso
    rcases hbad with h | h | h | h
    · exact h1 h
    · exact h h2
    · omega
    · unfold WORD at h5
      omega

/-- C17 at a range that wraps: `addr = 2^64 - 4096`, `len = 8192`. -/
theorem c17_munmap_invalid_witness :
    do_munmap weenix env_files (2 ^ 64 - 4096) 8192 = ⟨-weenix.EINVAL, []⟩ :=
  c17_munmap_invalid weenix (by decide) env_files (2 ^ 64 - 4096) 8192
    (Or.inr (Or.inr (Or.inr (by decide))))

/-- C18: whenever `do_mmap` called on `addr`, `len` reaches the mapper (with `MAP_FIXED`
or without) and `do_munmap` called on the same `addr`, `len` reaches the remover, the
start page and page count handed to the remover are those handed to the mapper. -/
theorem c18_unmap_targets_mapped_range (c : Consts) (env : Env)
    (addr len prot flags : Nat) (fd : Int) (off : Int) (ret : Nat)
    (vn : Option Nat) (lo np pr fl : Nat) (o d : Int) (ulo unp : Nat)
    (hmap : Event.vmmap_map vn lo np pr fl o d ∈
      (do_mmap c env addr len prot flags fd off ret).trace)
    (hun : Event.vmmap_remove ulo unp ∈ (do_munmap c env addr len).trace) :
    ulo = lo ∧ unp = np := by
  obtain ⟨hlo, hnp, -, -⟩ := do_mmap_reach c env addr len prot flags fd off ret
    vn lo np pr fl o d hmap
  rcases do_munmap_shape c env addr len with ⟨-, he⟩ | ⟨-, he⟩
  · rw [he] at hun
    simp at hun
  · rw [he] at hun
    simp only [List.mem_singleton, Event.vmmap_remove.injEq, addr_to_pn_align_down] at hun
    obtain ⟨h1, h2⟩ := hun
    exact ⟨by rw [h1, hlo], by rw [h2, hnp]⟩

/-- C18 at the fixed anonymous mapping of the page at `0x400000`. -/
theorem c18_unmap_targets_mapped_range_witness :
    (do_mmap weenix env_files 0x400000 4096 weenix.PROT_READ
        (weenix.MAP_FIXED ||| weenix.MAP_PRIVATE ||| weenix.MAP_ANON) (-1) 0 0).trace =
      [Event.vmmap_map none 0x400 1 1 14 0 2, Event.tlb_flush 0x400000] ∧
    (do_munmap weenix env_files 0x400000 4096).trace = [Event.vmmap_remove 0x400 1] ∧
    ((0x400 : Nat) = 0x400 ∧ (1 : Nat) = 1) :=
  ⟨by decide, by decide,
    c18_unmap_targets_mapped_range weenix env_files 0x400000 4096 weenix.PROT_READ
      (weenix.MAP_FIXED ||| weenix.MAP_PRIVATE ||| weenix.MAP_ANON) (-1) 0 0
      none 0x400 1 1 14 0 2 0x400 1 (by decide) (by decide)⟩

/-- C19: for a 64-bit `vaddr` and a 64-bit `count`, the loop of `tlb_flush_range` ends
after `count + 1` evaluations of its test and has then issued exactly `count` single
page invalidations, at the addresses `(vaddr + i * PAGE_SIZE) mod 2^64` for
`i = 0, …, count - 1` in this order; for `count = 0` it issues none.  The function
`tlb_flush_range` used by `do_mmap` produces the same events. -/
theorem c19_flush_range_events (c : Consts) (vaddr count : Nat)
    (hv : vaddr < WORD) (hn : count < WORD) :
    tlb_flush_range_loop c count (count + 1) 0 vaddr =
      some ((List.range count).map
        (fun i => Event.tlb_flush ((vaddr + i * PAGE_SIZE c) % WORD))) ∧
    tlb_flush_range c vaddr count =
      (List.range count).map (fun i => Event.tlb_flush ((vaddr + i * PAGE_SIZE c) % WORD)) ∧
    (tlb_flush_range c vaddr count).length = count ∧
    tlb_flush_range c vaddr 0 = [] := by
  have h1 := tlb_flush_range_loop_eq c count hn count 0 vaddr (by omega)
  have h2 := tlb_flush_range_eq_map c count vaddr hv
  refine ⟨by rw [h1, h2], h2, by rw [h2]; simp, rfl⟩

/-- C19 at the last page of the address space with three pages to flush: the address
wraps to `0` and `0x1000`. -/
theorem c19_flush_range_events_witness :
    tlb_flush_range_loop weenix 3 (3 + 1) 0 (2 ^ 64 - 4096) =
      some ((List.range 3).map
        (fun i => Event.tlb_flush ((2 ^ 64 - 4096 + i * PAGE_SIZE weenix) % WORD))) ∧
    tlb_flush_range weenix (2 ^ 64 - 4096) 3 =
      (List.range 3).map
        (fun i => Event.tlb_flush ((2 ^ 64 - 4096 + i * PAGE_SIZE weenix) % WORD)) ∧
    (tlb_flush_range weenix (2 ^ 64 - 4096) 3).length = 3 ∧
    tlb_flush_range weenix (2 ^ 64 - 4096) 0 = [] :=
  c19_flush_range_events weenix (2 ^ 64 - 4096) 3 (by decide) (by decide)

/-- The range test shared by `do_mmap` and `do_munmap` passes exactly when
`USER_MEM_LOW ≤ addr` and `addr + len < USER_MEM_HIGH` in unbounded arithmetic. -/
theorem range_check_iff (c : Consts) (hH : c.USER_MEM_HIGH ≤ 2 ^ 63) (addr len : Nat) :
    ¬ (addr < c.USER_MEM_LOW ∨ addr ≥ c.USER_MEM_HIGH ∨
        (addr + len) % WORD ≥ c.USER_MEM_HIGH ∨ (addr + len) % WORD < c.USER_MEM_LOW ∨
        len ≥ c.USER_MEM_HIGH) ↔
      (c.USER_MEM_LOW ≤ addr ∧ addr + len < c.USER_MEM_HIGH) := by
  unfold WORD
  constructor
  · intro h
    simp only [not_or, not_lt, ge_iff_le, not_le] at h
    omega
  · rintro ⟨h1, h2⟩
    have hm : (addr + len) % 2 ^ 64 = addr + len := Nat.mod_eq_of_lt (by omega)
    rw [hm]
    omega

/-- C20: assume `USER_MEM_HIGH ≤ 2^63`.  A page-aligned `do_munmap` request with
`len ≠ 0` reaches the remover, and a `MAP_FIXED` request of `do_mmap` that has passed
every earlier check reaches the mapper, exactly when `USER_MEM_LOW ≤ addr` and
`addr + len < USER_MEM_HIGH` in unbounded arithmetic; otherwise the result is
`-EINVAL`.  Hence a wrapping sum is never accepted, an accepted `len` is smaller than
`USER_MEM_HIGH - USER_MEM_LOW`, and a range that ends exactly at `USER_MEM_HIGH` is
refused. -/
theorem c20_range_check_exact (c : Consts) (hH : c.USER_MEM_HIGH ≤ 2 ^ 63) (env : Env)
    (uaddr ulen : Nat) (addr len prot flags : Nat) (fd : Int) (off : Int) (ret : Nat)
    (file : Option file_t) (tr : List Event)
    (hulen : ulen ≠ 0) (hual : PAGE_ALIGNED c uaddr)
    (hres : do_mmap_resolve c env prot flags fd = .ok (file, tr))
    (hfix : flags &&& c.MAP_FIXED ≠ 0) (hal : PAGE_ALIGNED c addr) (hnz : addr ≠ 0)
    (haoff : PAGE_ALIGNED c (toU64 off)) (hslen : 0 < toS64 len) (hoff : 0 ≤ off)
    (hsh : flags &&& c.MAP_PRIVATE ≠ 0 ∨ flags &&& c.MAP_SHARED ≠ 0) :
    ((∃ lo np, Event.vmmap_remove lo np ∈ (do_munmap c env uaddr ulen).trace) ↔
      (c.USER_MEM_LOW ≤ uaddr ∧ uaddr + ulen < c.USER_MEM_HIGH)) ∧
    (¬ (c.USER_MEM_LOW ≤ uaddr ∧ uaddr + ulen < c.USER_MEM_HIGH) →
      do_munmap c env uaddr ulen = ⟨-c.EINVAL, []⟩) ∧
    ((∃ e ∈ (do_mmap c env addr len prot flags fd off ret).trace, e.isMap = true) ↔
      (c.USER_MEM_LOW ≤ addr ∧ addr + len < c.USER_MEM_HIGH)) ∧
    (¬ (c.USER_MEM_LOW ≤ addr ∧ addr + len < c.USER_MEM_HIGH) →
      do_mmap c env addr len prot flags fd off ret = ⟨-c.EINVAL, tr ++ fput_if file⟩) ∧
    ((c.USER_MEM_LOW ≤ uaddr ∧ uaddr + ulen < c.USER_MEM_HIGH) →
      ulen < c.USER_MEM_HIGH - c.USER_MEM_LOW ∧ uaddr + ulen < WORD) ∧
    ((c.USER_MEM_LOW ≤ addr ∧ addr + len < c.USER_MEM_HIGH) →
      len < c.USER_MEM_HIGH - c.USER_MEM_LOW ∧ addr + len < WORD) ∧
    (uaddr + ulen = c.USER_MEM_HIGH → do_munmap c env uaddr ulen = ⟨-c.EINVAL, []⟩) ∧
    (addr + len = c.USER_MEM_HIGH →
      do_mmap c env addr len prot flags fd off ret = ⟨-c.EINVAL, tr ++ fput_if file⟩) := by
  -- the unmapping side
  have um_rej : ¬ (c.USER_MEM_LOW ≤ uaddr ∧ uaddr + ulen < c.USER_MEM_HIGH) →
      do_munmap c env uaddr ulen = ⟨-c.EINVAL, []⟩ := by
    intro hn
    rcases do_munmap_shape c env uaddr ulen with ⟨-, he⟩ | ⟨⟨-, -, h3, h4, h5, h6, h7⟩, -⟩
    · exact he
    · exact absurd ((range_check_iff c hH uaddr ulen).mp (by
        simp only [not_or, not_lt, ge_iff_le, not_le]
        exact ⟨h3, h4, h5, h6, h7⟩)) hn
  have um_acc : (c.USER_MEM_LOW ≤ uaddr ∧ uaddr + ulen < c.USER_MEM_HIGH) →
      ∃ lo np, Event.vmmap_remove lo np ∈ (do_munmap c env uaddr ulen).trace := by
    intro hc
    have hr := (range_check_iff c hH uaddr ulen).mpr hc
    rcases do_munmap_shape c env uaddr ulen with ⟨hbad, -⟩ | ⟨-, he⟩
    · rcases hbad with h | h | h
      · exact absurd h hulen
      · exact absurd hual h
      · exact absurd h hr
    · exact ⟨_, _, by rw [he]; exact List.mem_singleton.mpr rfl⟩
  -- the mapping side
  have m_rej : ¬ (c.USER_MEM_LOW ≤ addr ∧ addr + len < c.USER_MEM_HIGH) →
      do_mmap c env addr len prot flags fd off ret = ⟨-c.EINVAL, tr ++ fput_if file⟩ := by
    intro hn
    unfold do_mmap
    rw [hres]
    rcases do_mmap_map_shape c env file tr addr len prot flags off ret with
      he | ⟨hf, -⟩
    · exact he
    · obtain ⟨-, -, h3, h4, h5, h6, h7⟩ := hf hfix
      exact absurd ((range_check_iff c hH addr len).mp (by
        simp only [not_or, not_lt, ge_iff_le, not_le]
        exact ⟨h3, h4, h5, h6, h7⟩)) hn
  have m_acc : (c.USER_MEM_LOW ≤ addr ∧ addr + len < c.USER_MEM_HIGH) →
      ∃ e ∈ (do_mmap c env addr len prot flags fd off ret).trace, e.isMap = true := by
    intro hc
    have hr := (range_check_iff c hH addr len).mpr hc
    have h1 : ¬ ((¬ PAGE_ALIGNED c addr ∨ addr = 0) ∧ flags &&& c.MAP_FIXED ≠ 0) := by
      rintro ⟨h | h, -⟩
      · exact h hal
      · exact hnz h
    have h2 : ¬ ¬ PAGE_ALIGNED c (toU64 off) := not_not.mpr haoff
    have h3 : ¬ (toS64 len ≤ 0 ∨ off < 0) := by omega
    have h4 : ¬ (¬ (flags &&& c.MAP_PRIVATE ≠ 0) ∧ ¬ (flags &&& c.MAP_SHARED ≠ 0)) := by
      rintro ⟨ha, hb⟩
      rcases hsh with h | h
      · exact ha h
      · exact hb h
    have h5 : ¬ (flags &&& c.MAP_FIXED ≠ 0 ∧
        (addr < c.USER_MEM_LOW ∨ addr ≥ c.USER_MEM_HIGH ∨
          (addr + len) % WORD ≥ c.USER_MEM_HIGH ∨ (addr + len) % WORD < c.USER_MEM_LOW ∨
          len ≥ c.USER_MEM_HIGH)) := fun h => hr h.2
    unfold do_mmap
    rw [hres]
    simp only []
    unfold do_mmap_map
    rw [if_neg h1, if_neg h2, if_neg h3, if_neg h4, if_neg h5]
    simp only []
    split_ifs <;>
      exact ⟨Event.vmmap_map (file.map (fun f => f.f_vnode)) (ADDR_TO_PN c addr)
        (sub64 (ADDR_TO_PN c (PAGE_ALIGN_UP c ((addr + len) % WORD))) (ADDR_TO_PN c addr))
        prot flags off c.VMMAP_DIR_HILO, by simp, rfl⟩
  refine ⟨⟨?_, um_acc⟩, um_rej, ⟨?_, m_acc⟩, m_rej, ?_, ?_, ?_, ?_⟩
  · rintro ⟨lo, np, h⟩
    by_contra hn
    rw [um_rej hn] at h
    simp at h
  · rintro ⟨e, he, hm⟩
    by_contra hn
    rw [m_rej hn] at he
    have hpl : ∀ x ∈ tr ++ fput_if file, x.isMap = false := by
      intro x hx
      rcases do_mmap_resolve_ok c env prot flags fd file tr hres with
        ⟨hf, ht, -⟩ | ⟨f, hf, ht, -⟩ <;>
        rw [hf, ht] at hx <;> simp [fput_if] at hx
      rcases hx with rfl | rfl <;> rfl
    rw [hpl e he] at hm
    exact absurd hm (by simp)
  · rintro ⟨h1, h2⟩
    unfold WORD
    omega
  · rintro ⟨h1, h2⟩
    unfold WORD
    omega
  · intro h
    exact um_rej (by omega)
  · intro h
    exact m_rej (by omega)

/-- C20 at single pages of Weenix user memory: the page at `USER_MEM_LOW` for
`do_munmap`, and the last page `[USER_MEM_HIGH - 4096, USER_MEM_HIGH)` for a fixed
anonymous `do_mmap`, which is refused. -/
theorem c20_range_check_exact_witness :
    (do_munmap weenix env_files 0x400000 4096).trace = [Event.vmmap_remove 0x400 1] ∧
    do_mmap weenix env_files 0x7ffffffff000 4096 weenix.PROT_READ
        (weenix.MAP_FIXED ||| weenix.MAP_PRIVATE ||| weenix.MAP_ANON) (-1) 0 0 =
      ⟨-weenix.EINVAL, [] ++ fput_if none⟩ :=
  ⟨by decide,
    (c20_range_check_exact weenix (by decide) env_files 0x400000 4096 0x7ffffffff000 4096
      weenix.PROT_READ (weenix.MAP_FIXED ||| weenix.MAP_PRIVATE ||| weenix.MAP_ANON) (-1) 0 0
      none [] (by decide) (by decide) (by rfl) (by decide) (by decide) (by decide) (by decide)
      (by decide) (by decide) (by decide)).2.2.2.2.2.2.2 (by decide)⟩

end Weenix
